import Mathlib

/-! # Ubitrack dataflow components: embedding and verified properties

Shallow embedding of components from `src/utComponents` and `src/utIOComponents`.
Each component becomes a state record with one function per handler.  A handler
that may throw returns `Except`; a handler that sends on an output port returns
a `Step` recording the new state, the measurements sent during the call (in
order) and the exception that left the call, if any.

Timestamps are nanoseconds in an unsigned 64-bit integer: they are `Nat`s, and a
machine addition or multiplication that can overflow is reduced modulo `2 ^ 64`
explicitly.
-/

namespace Ubitrack

/-! ## Data model -/

/-- Modelled from the spec: `Measurement::Timestamp`, whose declaration is not part of
the sources at hand, is a 64-bit integer count of nanoseconds; unsigned arithmetic on
it wraps at `2 ^ 64`. -/
def timestampModulus : Nat := 2 ^ 64

/-- A valid measurement: a timestamp together with a payload.  A default-constructed
(invalid) measurement is represented by `none` in an `Option (Measurement α)`. -/
structure Measurement (α : Type) where
  time : Nat
  payload : α
deriving DecidableEq, Repr

/-- The constructor `EventType( t, m )`: the payload of `m` under the new timestamp `t`. -/
def Measurement.retime {α : Type} (t : Nat) (m : Option (Measurement α)) :
    Option (Measurement α) :=
  m.map fun e => { time := t, payload := e.payload }

deriving instance DecidableEq for Except

/-- Result of one handler call on a component that owns an output port: the state
after the call, the measurements sent on the output port during the call, and the
message of the exception that propagated out of the call (if one did). -/
structure Step (σ β : Type) where
  state : σ
  sent : List β
  raised : Option String

/-! ## Buffer (`utComponents/Buffer.h`) -/

/-- Member variables of `Buffer< EventType >`. -/
structure Buffer (α : Type) where
  m_event : Option (Measurement α)
  m_eventCounter : Int
  m_maxAge : Nat

/-- The constructor `Buffer::Buffer`: `ms` is the value of the `maxAge` attribute read into
an `unsigned long` (0 when the attribute is absent); `ms *= 1000000` wraps, `unsigned long`
being 64 bits wide (LP64). -/
def Buffer.init {α : Type} (ms : Nat) : Buffer α :=
  { m_event := none
    m_eventCounter := 0
    m_maxAge := (ms * 1000000) % timestampModulus }

/-- The handler `Buffer::eventIn`. -/
def Buffer.eventIn {α : Type} (b : Buffer α) (m : Measurement α) : Buffer α :=
  { b with
    m_event := some m
    m_eventCounter := if b.m_eventCounter < 1 then b.m_eventCounter + 1 else b.m_eventCounter }

/-- Member variables of `RingBuffer< EventType >`; `capacity` is `m_list.capacity()`. -/
structure RingBuffer (α : Type) where
  m_size : Nat
  m_position_buffer : Nat
  m_list : List α
  capacity : Nat

/-- The constructor `RingBuffer::RingBuffer`: `size` is the `size` attribute when present.
`m_list.reserve( m_size )` on the empty vector leaves a capacity of exactly `m_size`. -/
def RingBuffer.init {α : Type} (size : Option Nat) : RingBuffer α :=
  match size with
  | none => { m_size := 0, m_position_buffer := 0, m_list := [], capacity := 0 }
  | some n => { m_size := n, m_position_buffer := 0, m_list := [], capacity := n }

/-- The method `RingBuffer::compute`, called with the payload `x` held by the input port.
The result is `none` where the behaviour of the source is undefined: indexing `m_list`
outside its size, or a remainder by zero. -/
def RingBuffer.compute {α : Type} (rb : RingBuffer α) (x : α) (t : Nat) :
    Option (Step (RingBuffer α) (Measurement (List α))) :=
  if rb.m_list.length < rb.capacity then
    let l := rb.m_list ++ [x]
    let rb1 := { rb with m_list := l }
    if l.length < rb.capacity then
      some { state := rb1, sent := []
             raised := some "Ring buffer not full. need to add more measurements." }
    else
      some { state := rb1, sent := [{ time := t, payload := l }], raised := none }
  else if rb.m_position_buffer < rb.m_list.length ∧ rb.m_size ≠ 0 then
    let l := rb.m_list.set rb.m_position_buffer x
    some { state := { rb with m_list := l
                              m_position_buffer := (rb.m_position_buffer + 1) % rb.m_size }
           sent := [{ time := t, payload := l }], raised := none }
  else
    none

/-- The ring buffer after a sequence of `compute` calls, each given as the received payload
and the timestamp; `none` once a call has undefined behaviour. -/
def RingBuffer.run {α : Type} (rb : RingBuffer α) :
    List (α × Nat) → Option (RingBuffer α)
  | [] => some rb
  | (x, t) :: rest =>
    match rb.compute x t with
    | none => none
    | some st => RingBuffer.run st.state rest

/-- The full ring buffer `s` of capacity `N` after the values `xs` have arrived: the write
position is `xs.length mod N`, reading the ring from the write position yields the last `N`
values in arrival order, and the value with arrival index `j` (counted from 0) among the last
`N` sits in slot `j mod N`. -/
def RingBuffer.HoldsLast {α : Type} (N : Nat) (xs : List α) (s : RingBuffer α) : Prop :=
  s.m_size = N ∧ s.capacity = N ∧ s.m_list.length = N ∧
  s.m_position_buffer = xs.length % N ∧
  s.m_list.rotate s.m_position_buffer = xs.drop (xs.length - N) ∧
  ∀ j, j < xs.length → xs.length ≤ j + N → s.m_list[j % N]? = xs[j]?

/-! ## WindowedAggregator (`utComponents/WindowedAggregator.cpp`) -/

/-- The unit in the last place of the `double` nearest to the whole number `n`: the smallest
power of two `u` with `n / u < 2^53`; `fuel` bounds the number of halvings. -/
def doubleUlp : Nat → Nat → Nat
  | 0, _ => 1
  | fuel + 1, n => if n < 2 ^ 53 then 1 else 2 * doubleUlp fuel (n / 2)

/-- The conversion of a non-negative whole number to `double` (53-bit significand, round to
nearest, ties to even); the sum and the product of two whole-numbered `double` values are
this rounding of the exact sum and product.  The exponent range is not modelled: a value of
`2^1024` or more, infinite as a `double`, stays finite here, and either one compares above
every timestamp. -/
def roundToDouble (n : Nat) : Nat :=
  if 2 * (n % doubleUlp n n) < doubleUlp n n then n / doubleUlp n n * doubleUlp n n
  else if doubleUlp n n < 2 * (n % doubleUlp n n) then (n / doubleUlp n n + 1) * doubleUlp n n
  else if n / doubleUlp n n % 2 = 0 then n / doubleUlp n n * doubleUlp n n
  else (n / doubleUlp n n + 1) * doubleUlp n n

/-- Member variables of `WindowedAggregator< EventType >`.  The source keeps `m_time`
(nanoseconds) in a `double`; the embedding holds the value of that `double`, a non-negative
whole number of nanoseconds. -/
structure WindowedAggregator (α : Type) where
  m_time : Nat
  m_mList : List α
  m_tList : List Nat

/-- The constructor `WindowedAggregator::WindowedAggregator`: `time` is the `time`
attribute (a whole number of milliseconds) when present, read into a `double` and multiplied
by `1e+06` in `double`. -/
def WindowedAggregator.init {α : Type} (time : Option Nat) : WindowedAggregator α :=
  match time with
  | none => { m_time := 0, m_mList := [], m_tList := [] }
  | some ms =>
    { m_time := roundToDouble (roundToDouble ms * 1000000), m_mList := [], m_tList := [] }

/-- The loop `while( ( m_tList.front() + m_time ) < t ) { pop_front ... }` on both queues.
The comparison is made in `double`: both timestamps are converted and the sum is rounded.
The result is `none` when `front()` or `pop_front()` is applied to an empty queue. -/
def WindowedAggregator.evict {α : Type} (m_time t : Nat) :
    List α → List Nat → Option (List α × List Nat)
  | m :: ms, f :: ts =>
    if roundToDouble (roundToDouble f + m_time) < roundToDouble t then
      WindowedAggregator.evict m_time t ms ts
    else some (m :: ms, f :: ts)
  | _, [] => none
  | [], f :: ts =>
    if roundToDouble (roundToDouble f + m_time) < roundToDouble t then none
    else some ([], f :: ts)

/-- The method `WindowedAggregator::compute`, called with the payload `x` held by the
input port. -/
def WindowedAggregator.compute {α : Type} (w : WindowedAggregator α) (x : α) (t : Nat) :
    Option (Step (WindowedAggregator α) (Measurement (List α))) :=
  match WindowedAggregator.evict w.m_time t (w.m_mList ++ [x]) (w.m_tList ++ [t]) with
  | none => none
  | some (ms, ts) =>
    some { state := { w with m_mList := ms, m_tList := ts }
           sent := [{ time := t, payload := ms }], raised := none }

/-- The aggregator after a sequence of `compute` calls. -/
def WindowedAggregator.run {α : Type} (w : WindowedAggregator α) :
    List (α × Nat) → Option (WindowedAggregator α)
  | [] => some w
  | (x, t) :: rest =>
    match w.compute x t with
    | none => none
    | some st => WindowedAggregator.run st.state rest

/-! ## CastComponent (`utComponents/CastComponent.cpp`) -/

/-- The specialisations `CastComponent< PositionList, Position >::compute` and
`CastComponent< PositionList2, Position2D >::compute` (identical bodies); `input` is the
payload held by the input port.  `at( 0 )` on an empty list throws `std::out_of_range`. -/
def CastComponent.computeListToElement {α : Type} (input : List α) (t : Nat) :
    Step Unit (Measurement α) :=
  if input.length ≠ 1 then
    { state := (), sent := [], raised := some "list size not 1" }
  else
    match input[0]? with
    | some v => { state := (), sent := [{ time := t, payload := v }], raised := none }
    | none => { state := (), sent := [], raised := some "std::out_of_range" }

/-- The list extraction overload of `convert`. -/
def CastComponent.convert {α : Type} (b : Measurement (List α)) :
    Except String (Measurement α) :=
  if b.payload.length ≠ 1 then
    .error "list size not 1"
  else
    match b.payload[0]? with
    | some v => .ok { time := b.time, payload := v }
    | none => .error "std::out_of_range"

/-! ## RANSACAbsoluteOrientationComponent (`utComponents/AbsoluteOrientationRANSAC.cpp`) -/

/-- Result of `RANSACAbsoluteOrientationComponent::compute`: what was sent, what was
thrown, and how often the external `Ransac` estimator was called. -/
structure RansacStep (P : Type) where
  sent : List (Measurement P)
  raised : Option String
  estimatorCalls : Nat

/-- The method `RANSACAbsoluteOrientationComponent::compute`.  `Ransac` is the external robust
estimator of `utMath/Ransac.h` with the configured threshold, set size and run bounds
fixed; it yields the estimated pose and its return value.  `a` and `b` are the payloads
of `InputA` and `InputB`. -/
def RANSACAbsoluteOrientationComponent.compute {V P : Type}
    (Ransac : List V → List V → P × Nat) (a b : List V) (t : Nat) : RansacStep P :=
  if a.length ≠ b.length ∨ a.length < 3 then
    { sent := [], raised := some "Illegal number of correspondences", estimatorCalls := 0 }
  else
    let p := (Ransac a b).1
    { sent := [{ time := t, payload := p }], raised := none, estimatorCalls := 1 }

/-! ## CollectorComponent (`utComponents/Collector.cpp`) -/

/-- Outcome of `PullConsumer::get( t )`: a measurement, a thrown `Util::Exception`, or a
thrown `std::exception` of another class. -/
inductive PullResult (α : Type) where
  | ok (m : Measurement α)
  | utilException (msg : String)
  | stdException (msg : String)

/-- The first `try` block of `CollectorComponent::sendOutput` and its handlers: the value of
the local `List` afterwards.  `EventTypeB( value_type() )` holds an empty list. -/
def CollectorComponent.pullList {α : Type} (list : PullResult (List α)) :
    Option (Measurement (List α)) :=
  match list with
  | .ok m => some m
  | .utilException _ => some { time := 0, payload := [] }
  | .stdException _ => none

/-- The second `try` block of `CollectorComponent::sendOutput` and its handlers.
Modelled from the spec: `List->push_back` on an invalid (default-constructed) measurement
raises the "empty measurement" error, which the handler swallows. -/
def CollectorComponent.pushInput {α : Type} (list : Option (Measurement (List α)))
    (input : PullResult α) : Option (Measurement (List α)) :=
  match input with
  | .ok meas =>
    match list with
    | some l => some { l with payload := l.payload ++ [meas.payload] }
    | none => none
  | .utilException _ => list
  | .stdException _ => list

/-- The pull handler `CollectorComponent::sendOutput`; `list` and `input` are the outcomes
of `m_inPortB.get( t )` and `m_inPortA.get( t )`. -/
def CollectorComponent.sendOutput {α : Type} (list : PullResult (List α))
    (input : PullResult α) (t : Nat) : Except String (Option (Measurement (List α))) :=
  let l1 := CollectorComponent.pullList list
  let l2 := CollectorComponent.pushInput l1 input
  .ok (Measurement.retime t l2)

/-! ## TimeSpaceConverter (`utComponents/TimeSpaceConverter.cpp`) -/

/-- Member variables of `TimeSpaceConverter< EventType >`, with the answer of
`isPortPush( "Input" )`, fixed by the dataflow graph. -/
structure TimeSpaceConverter (α : Type) where
  m_size : Nat
  m_list : List α
  inputIsPush : Bool

/-- The constructor `TimeSpaceConverter::TimeSpaceConverter`: `m_size` is 30 unless the `size`
attribute is present. -/
def TimeSpaceConverter.init {α : Type} (size : Option Nat) ( isPush : Bool) :
    TimeSpaceConverter α :=
  { m_size := size.getD 30, m_list := [], inputIsPush := isPush }

/-- The loop `while ( m_list.size() < m_size ) { m_inPort.pull( t ); push_back }` run for
`missing` iterations; `pull i` is the outcome of the `i`-th pull of this call.  Returns the
list and the exception that ended the loop, if any. -/
def TimeSpaceConverter.pullMissing {α : Type} (pull : Nat → Except String α) :
    (missing : Nat) → (i : Nat) → List α → List α × Option String
  | 0, _, l => (l, none)
  | n + 1, i, l =>
    match pull i with
    | .error e => (l, some e)
    | .ok v => TimeSpaceConverter.pullMissing pull n (i + 1) (l ++ [v])

/-- The method `TimeSpaceConverter::compute`, called with the payload `x` held by the input
port. -/
def TimeSpaceConverter.compute {α : Type} (c : TimeSpaceConverter α)
    (pull : Nat → Except String α) (x : α) (t : Nat) :
    Step (TimeSpaceConverter α) (Measurement (List α)) :=
  let l := c.m_list ++ [x]
  if l.length < c.m_size then
    if c.inputIsPush then
      { state := { c with m_list := l }, sent := [], raised := none }
    else
      match TimeSpaceConverter.pullMissing pull (c.m_size - l.length) 0 l with
      | (l1, some e) => { state := { c with m_list := l1 }, sent := [], raised := some e }
      | (l1, none) =>
        { state := { c with m_list := [] }, sent := [{ time := t, payload := l1 }]
          raised := none }
  else
    { state := { c with m_list := [] }, sent := [{ time := t, payload := l }], raised := none }

/-- The converter after a sequence of `compute` calls, each given as the received payload and
the timestamp. -/
def TimeSpaceConverter.run {α : Type} (pull : Nat → Except String α)
    (c : TimeSpaceConverter α) : List (α × Nat) → TimeSpaceConverter α
  | [] => c
  | (x, t) :: rest => TimeSpaceConverter.run pull (c.compute pull x t).state rest

/-! ## PoseKalmanFilterComponent (`utComponents/PoseKalmanFilter.cpp`) -/

/-- Member variables of `PoseKalmanFilterComponent` as far as `checkSend` reads them.  Every
input port is represented by its number of queued events (`getQueuedEvents()`);
`outPushConnected` is `m_outPush.isConnected()` and `m_pKF` the state of the external
filter. -/
structure PoseKalmanFilterComponent (K : Type) where
  m_inPosePorts : List Nat
  m_inRotationPorts : List Nat
  m_inRotationVelocityPorts : List Nat
  m_inInverseRotationVelocityPorts : List Nat
  outPushConnected : Bool
  m_pKF : K

/-- One loop `for ( i ... ) if ( ports[ i ]->getQueuedEvents() > 0 ) return;` of `checkSend`:
`true` when the loop returns from `checkSend`. -/
def PoseKalmanFilterComponent.hasQueued : List Nat → Bool
  | [] => false
  | q :: rest => if q > 0 then true else PoseKalmanFilterComponent.hasQueued rest

/-- The method `PoseKalmanFilterComponent::checkSend`: the measurements sent on `m_outPush`.
`predictPose` is the prediction of the external filter (`Tracking::PoseKalmanFilter`). -/
def PoseKalmanFilterComponent.checkSend {K E : Type} (c : PoseKalmanFilterComponent K)
    (predictPose : K → Nat → E) (t : Nat) : List E :=
  if c.outPushConnected then
    if PoseKalmanFilterComponent.hasQueued c.m_inPosePorts then []
    else if PoseKalmanFilterComponent.hasQueued c.m_inRotationPorts then []
    else if PoseKalmanFilterComponent.hasQueued c.m_inRotationVelocityPorts then []
    else if PoseKalmanFilterComponent.hasQueued c.m_inInverseRotationVelocityPorts then []
    else [predictPose c.m_pKF t]
  else []

/-- The handlers `receivePose`, `receiveRotation`, `receiveRotationVelocity` and
`receiveInverseRotationVelocity` (same shape): integrate the measurement `m` into the filter
with the external `add...Measurement`, then `checkSend( m.time() )`. -/
def PoseKalmanFilterComponent.receive {K E M : Type} (c : PoseKalmanFilterComponent K)
    (addMeasurement : K → Measurement M → K) (predictPose : K → Nat → E)
    (m : Measurement M) : Step (PoseKalmanFilterComponent K) E :=
  let c1 := { c with m_pKF := addMeasurement c.m_pKF m }
  { state := c1, sent := c1.checkSend predictPose m.time, raised := none }

/-! ## CalibWriter (`utIOComponents/CalibFile.cpp`) -/

/-- The constant `CalibWriter::s_minWriteDistance`. -/
def CalibWriter.s_minWriteDistance : Nat := 975000000

/-- Member variables of `CalibWriter< EventType >`, with the calibration file as the list of
measurements written to it by `Util::writeCalibFile` so far (each write replaces the
content, so the last entry is the content of the file). -/
structure CalibWriter (α : Type) where
  m_lastTS : Nat
  m_lastMeasurement : Option (Measurement α)
  written : List (Measurement α)

/-- The constructor `CalibWriter::CalibWriter` (with a non-empty `file` attribute). -/
def CalibWriter.init {α : Type} : CalibWriter α :=
  { m_lastTS := 0, m_lastMeasurement := none, written := [] }

/-- The handler `CalibWriter::eventIn`; the sum `m_lastTS + s_minWriteDistance` is a 64-bit
unsigned sum. -/
def CalibWriter.eventIn {α : Type} (w : CalibWriter α) (n : Measurement α) : CalibWriter α :=
  if (w.m_lastTS + CalibWriter.s_minWriteDistance) % timestampModulus > n.time then
    { w with m_lastMeasurement := some n }
  else
    { m_lastTS := n.time, m_lastMeasurement := none, written := w.written ++ [n] }

/-- The destructor `CalibWriter::~CalibWriter`. -/
def CalibWriter.destroy {α : Type} (w : CalibWriter α) : CalibWriter α :=
  match w.m_lastMeasurement with
  | some m => { w with written := w.written ++ [m] }
  | none => w

/-- The writer after a sequence of incoming events, oldest first. -/
def CalibWriter.receiveAll {α : Type} (w : CalibWriter α) (events : List (Measurement α)) :
    CalibWriter α :=
  events.foldl CalibWriter.eventIn w

/-! ## NetworkSource `SourceModule` (`utIOComponents/NetworkSource.cpp`) -/

/-- The `boost::system::error_code` handed to `SourceModule::HandleReceive`: no error, the
error `boost::asio::error::message_size`, or any other error with its printed form. -/
inductive ReceiveError where
  | success
  | message_size
  | other (what : String)
deriving DecidableEq, Repr

/-- What one call of `SourceModule::HandleReceive` did: the error and warning messages logged,
the components whose `parse` was called with the message, the exception that left the call, and
whether `async_receive_from` was called again at the end. -/
structure ReceiveOutcome where
  logged : List String
  delivered : List String
  raised : Option String
  rearmed : Bool
deriving DecidableEq, Repr

/-- The handler `SourceModule::HandleReceive`.  `registered` lists the keys of the components
of the module (`hasComponent`), `max_receive_length` is the constant of `NetworkSource.h`,
`name` is the outcome of opening the text archive and reading the component identifier (a
thrown `std::exception` or the identifier), and `parse key` is the exception thrown by the
`parse` method of the component `key`, if it throws one. -/
def SourceModule.HandleReceive (registered : List String) (parse : String → Option String)
    (max_receive_length : Nat) (err : ReceiveError) (length : Nat)
    (name : Except String String) : ReceiveOutcome :=
  match err with
  | .other what =>
    { logged := ["Error receiving from socket: \"" ++ what ++ "\""], delivered := []
      raised := some ("Error receiving from socket: \"" ++ what ++ "\""), rearmed := false }
  | _ =>
    if length ≥ max_receive_length then
      { logged := ["Too many bytes received"], delivered := []
        raised := some "FIXME: received more than max_receive_length bytes.", rearmed := false }
    else
      match name with
      | .error e =>
        { logged := ["Caught exception " ++ e], delivered := [], raised := none, rearmed := true }
      | .ok key =>
        if registered.contains key then
          match parse key with
          | some e =>
            { logged := ["Caught exception " ++ e], delivered := [key], raised := none
              rearmed := true }
          | none => { logged := [], delivered := [key], raised := none, rearmed := true }
        else
          { logged := ["NetworkSink is sending with id=\"" ++ key ++
              "\", found no corresponding NetworkSource pattern with same id."]
            delivered := [], raised := none, rearmed := true }

/-! ## Sampler (`utComponents/Sampler.h`) and TestSource (`utIOComponents/TestSource.cpp`) -/

/-- Member variables of `Sampler< EventType >` that `start` and `stop` touch.  `m_pThread` is
the number of the thread object held (threads are numbered in creation order), `created`
counts the threads created and `joined` lists the threads on which `join()` was called. -/
structure Sampler where
  m_running : Bool
  m_bStop : Bool
  m_pThread : Option Nat
  created : Nat
  joined : List Nat
deriving DecidableEq, Repr

/-- The method `Sampler::start`. -/
def Sampler.start (s : Sampler) : Sampler :=
  if !s.m_running then
    { s with m_running := true, m_bStop := false, m_pThread := some s.created
             created := s.created + 1 }
  else s

/-- The method `Sampler::stop`. -/
def Sampler.stop (s : Sampler) : Sampler :=
  if s.m_running then
    match s.m_pThread with
    | some th => { s with m_running := false, m_bStop := true, joined := s.joined ++ [th] }
    | none => { s with m_running := false, m_bStop := true }
  else s

/-- The constructor `Sampler::Sampler`, which ends with a call of `stop()`.
Modelled from the spec: `Dataflow::Component`, not part of the sources at hand, starts in the
stopped state (`m_running` is `false`). -/
def Sampler.init : Sampler :=
  Sampler.stop { m_running := false, m_bStop := true, m_pThread := none, created := 0
                 joined := [] }

/-- A call of `start()` or `stop()`. -/
inductive LifecycleCall where
  | start
  | stop
deriving DecidableEq, Repr

/-- The sampler after a sequence of `start()` and `stop()` calls. -/
def Sampler.run (s : Sampler) : List LifecycleCall → Sampler
  | [] => s
  | .start :: rest => Sampler.run s.start rest
  | .stop :: rest => Sampler.run s.stop rest

/-- Member variables of `TestSource< EventType >` that `start` and `stop` touch;
`frequencyNonZero` is the truth value of `m_frequency`. -/
structure TestSource where
  m_running : Bool
  m_bStop : Bool
  m_pThread : Option Nat
  frequencyNonZero : Bool
  created : Nat
  joined : List Nat
deriving DecidableEq, Repr

/-- The method `TestSource::start`. -/
def TestSource.start (s : TestSource) : TestSource :=
  if !s.m_running then
    if s.frequencyNonZero then
      { s with m_bStop := false, m_running := true, m_pThread := some s.created
               created := s.created + 1 }
    else
      { s with m_bStop := false, m_running := true }
  else s

/-- The method `TestSource::stop`. -/
def TestSource.stop (s : TestSource) : TestSource :=
  if s.m_running then
    match s.m_pThread with
    | some th => { s with m_bStop := true, m_running := false, joined := s.joined ++ [th] }
    | none => { s with m_bStop := true, m_running := false }
  else s

/-- The constructor `TestSource::TestSource`, which ends with a call of `stop()`.
Modelled from the spec: `Dataflow::Component`, not part of the sources at hand, starts in the
stopped state (`m_running` is `false`). -/
def TestSource.init (frequencyNonZero : Bool) : TestSource :=
  TestSource.stop { m_running := false, m_bStop := true, m_pThread := none
                    frequencyNonZero := frequencyNonZero, created := 0, joined := [] }

/-- The test source after a sequence of `start()` and `stop()` calls. -/
def TestSource.run (s : TestSource) : List LifecycleCall → TestSource
  | [] => s
  | .start :: rest => TestSource.run s.start rest
  | .stop :: rest => TestSource.run s.stop rest

/-! ## Player (`utIOComponents/Player.cpp`) -/

/-- Member variables of `PlayerComponent< EventType >`.  The playback computations are
embedded in exact arithmetic: timestamps and the `int` offset as integers without
wrap-around, the `double` speedup as a rational number. -/
structure PlayerComponent (α : Type) where
  m_offset : Int
  m_speedup : ℚ
  m_events : List (Measurement α)
  m_iterator : Nat

/-- The method `PlayerComponent::getFirstTime`. -/
def PlayerComponent.getFirstTime {α : Type} (c : PlayerComponent α) : Int :=
  match c.m_events with
  | e :: _ => (e.time : Int) + 1000000 * c.m_offset
  | [] => 0

/-- The method `PlayerComponent::recordTimeToReal`; the final `static_cast` to a timestamp
drops the fractional part. -/
def PlayerComponent.recordTimeToReal {α : Type} (c : PlayerComponent α)
    (t recordStart playbackStart : Int) : Int :=
  ⌊(((t - recordStart + c.m_offset * 1000000 : Int) : ℚ) / c.m_speedup + (playbackStart : ℚ))⌋

/-- The method `PlayerComponent::getNextTime`. -/
def PlayerComponent.getNextTime {α : Type} (c : PlayerComponent α)
    (recordStart playbackStart : Int) : Int :=
  match c.m_events[c.m_iterator]? with
  | some e => c.recordTimeToReal e.time recordStart playbackStart
  | none => 0

/-- The first loop of `PlayerModule::mainloop`: the value of `recordStart` after the loop over
the components `l`, started with the value `recordStart`. -/
def PlayerModule.findRecordStart {α : Type} (recordStart : Int) :
    List (PlayerComponent α) → Int
  | [] => recordStart
  | c :: rest =>
    let t := c.getFirstTime
    if t ≠ 0 ∧ (recordStart = 0 ∨ t < recordStart) then PlayerModule.findRecordStart t rest
    else PlayerModule.findRecordStart recordStart rest

/-- The value of `recordStart` chosen by `PlayerModule::mainloop` for the components `l`. -/
def PlayerModule.recordStart {α : Type} (l : List (PlayerComponent α)) : Int :=
  PlayerModule.findRecordStart 0 l

/-! ## Accumulator (`utComponents/Accumulator.cpp`) -/

/-- Number of values of an `unsigned int` (32 bits); arithmetic on it wraps at this modulus. -/
def uintModulus : Nat := 2 ^ 32

/-- Member variables of `Accumulator< EventType >`. -/
structure Accumulator (α : Type) where
  m_maxLength : Nat
  m_size : Nat
  m_data : List α

/-- The constructor `Accumulator::Accumulator`: `m_maxLength` is 100 unless the `maxLength`
attribute is present. -/
def Accumulator.init {α : Type} (maxLength : Option Nat) : Accumulator α :=
  { m_maxLength := maxLength.getD 100, m_size := 0, m_data := [] }

/-- The handler `Accumulator::receive`; `++m_size` is an `unsigned int` increment. -/
def Accumulator.receive {α : Type} (a : Accumulator α) (event : Measurement α) :
    Step (Accumulator α) (Measurement (List α)) :=
  let data := a.m_data ++ [event.payload]
  let size := (a.m_size + 1) % uintModulus
  if size > a.m_maxLength then
    { state := { a with m_size := size - 1, m_data := data.tail }
      sent := [{ time := event.time, payload := data.tail }], raised := none }
  else
    { state := { a with m_size := size, m_data := data }
      sent := [{ time := event.time, payload := data }], raised := none }

/-- The accumulator after a sequence of received events, oldest first. -/
def Accumulator.receiveAll {α : Type} (a : Accumulator α) :
    List (Measurement α) → Accumulator α
  | [] => a
  | e :: rest => Accumulator.receiveAll (a.receive e).state rest

/-! ## LinearInterpolation (`utComponents/LinearInterpolation.cpp`) -/

/-- The value of an unsigned 64-bit integer `x` converted to `long long int` (two's
complement). -/
def toInt64 (x : Nat) : Int :=
  if x % timestampModulus < 2 ^ 63 then ((x % timestampModulus : Nat) : Int)
  else ((x % timestampModulus : Nat) : Int) - (2 ^ 64 : Int)

/-- The difference `a - b` of two timestamps in unsigned 64-bit arithmetic. -/
def timestampSub (a b : Nat) : Nat :=
  (a % timestampModulus + (timestampModulus - b % timestampModulus)) % timestampModulus

/-- Member variables of `LinearInterpolation< EventType >`. -/
structure LinearInterpolation (α : Type) where
  m_ringBuffer : List (Measurement α)
  m_ringBufferSize : Nat
  m_timeout : Int

/-- The constructor `LinearInterpolation::LinearInterpolation`: `ms` is the value of the
`maxAge` attribute read into an `unsigned long` (0 when absent); `timeout *= 1000000` wraps
and the result is stored in the `long long int` `m_timeout`. -/
def LinearInterpolation.init {α : Type} (ms : Nat) : LinearInterpolation α :=
  { m_ringBuffer := [], m_ringBufferSize := 50
    m_timeout := toInt64 ((ms * 1000000) % timestampModulus) }

/-- The handler `LinearInterpolation::eventIn`. -/
def LinearInterpolation.eventIn {α : Type} (s : LinearInterpolation α) (m : Measurement α) :
    LinearInterpolation α :=
  if (s.m_ringBuffer ++ [m]).length > s.m_ringBufferSize then
    { s with m_ringBuffer := (s.m_ringBuffer ++ [m]).tail }
  else
    { s with m_ringBuffer := s.m_ringBuffer ++ [m] }

/-- Member variables of `Gate< EventType >`; `old` is `none` while it is still the
default-constructed measurement. -/
structure Gate (α : Type) where
  m_type : Int
  m_open : Bool
  m_inCount : Int
  m_button : Int
  old : Option (Measurement α)

/-- The constructor `Gate::Gate`: `gateType` is the `gateType` attribute when present and
`button` the characters of the `button` attribute when present (as `char` values). -/
def Gate.init {α : Type} (gateType : Option Int) (button : Option (List Int)) : Gate α :=
  { m_type := gateType.getD 0
    m_open := false
    m_inCount := 0
    m_button :=
      match button with
      | none => 32
      | some [] => -1
      | some (c :: _) => c
    old := none }

/-- The handler `Gate::manageGate`; the measurements sent on `Output` are the values of
`old` at the time of sending. -/
def Gate.manageGate {α : Type} (g : Gate α) (data : Measurement α) :
    Step (Gate α) (Option (Measurement α)) :=
  if g.m_open ∧ g.m_type = 1 then
    { state := { g with m_inCount := 1, old := some data, m_open := false }
      sent := [some data], raised := none }
  else
    { state := { g with m_inCount := 1, old := some data }, sent := [], raised := none }

/-- The handler `Gate::openGate` for the button event `b`. -/
def Gate.openGate {α : Type} (g : Gate α) (b : Measurement Int) :
    Step (Gate α) (Option (Measurement α)) :=
  if g.m_button < 0 ∨ b.payload = g.m_button then
    if g.m_type = 0 then
      if g.m_inCount ≠ 0 then { state := g, sent := [g.old], raised := none }
      else { state := g, sent := [], raised := none }
    else if g.m_type = 2 then
      if g.m_inCount ≠ 0 then
        { state := { g with old := g.old.map fun o => { o with time := b.time } }
          sent := [g.old.map fun o => { o with time := b.time }], raised := none }
      else { state := g, sent := [], raised := none }
    else
      { state := { g with m_open := true }, sent := [], raised := none }
  else
    { state := g, sent := [], raised := none }

/-- An event arriving at a gate: a measurement on `Input` or a button event on `Signal`. -/
inductive GateInput (α : Type) where
  | data (m : Measurement α)
  | signal (b : Measurement Int)

/-- Dispatch of an arriving event to its handler. -/
def Gate.handle {α : Type} (g : Gate α) : GateInput α → Step (Gate α) (Option (Measurement α))
  | .data m => g.manageGate m
  | .signal b => g.openGate b

/-- The gate after a sequence of arriving events, with everything sent on `Output`. -/
def Gate.run {α : Type} (g : Gate α) :
    List (GateInput α) → Step (Gate α) (Option (Measurement α))
  | [] => { state := g, sent := [], raised := none }
  | x :: rest =>
    { state := (Gate.run (g.handle x).state rest).state
      sent := (g.handle x).sent ++ (Gate.run (g.handle x).state rest).sent
      raised := none }

/-- Whether an arriving event is a signal matching the configured button `m_button` (any
signal when `m_button` is negative). -/
def Gate.isMatchingSignal {α : Type} (m_button : Int) : GateInput α → Bool
  | .data _ => false
  | .signal b => decide (m_button < 0 ∨ b.payload = m_button)

/-! ## TriggerLoop (`utComponents/TriggerLoop.cpp`) -/

/-- Member variables of `TriggerLoop`. -/
structure TriggerLoop where
  m_bStopped : Bool
  m_counter : Int
  m_size : Int
  m_button : Int
  m_inButton : Int
deriving DecidableEq, Repr

/-- A button event sent by `TriggerLoop` on one of its two output ports. -/
inductive TriggerLoopOutput where
  | iterationTrigger (b : Measurement Int)
  | loopDone (b : Measurement Int)
deriving DecidableEq, Repr

/-- The character `s[ 0 ]` of a `std::string` given by its `char` values (the terminating
zero for the empty string). -/
def firstChar : List Int → Int
  | [] => 0
  | c :: _ => c

/-- The constructor `TriggerLoop::TriggerLoop`: `size`, `button` and `inButton` are the
attributes of these names when present. -/
def TriggerLoop.init (size : Option Int) (button inButton : Option (List Int)) : TriggerLoop :=
  { m_bStopped := true
    m_counter := 0
    m_size := size.getD 100
    m_button := firstChar (button.getD [32])
    m_inButton := firstChar (inButton.getD [32]) }

/-- The handler `TriggerLoop::externalTrigger`. -/
def TriggerLoop.externalTrigger (s : TriggerLoop) (e : Measurement Int) :
    Step TriggerLoop TriggerLoopOutput :=
  if e.payload = s.m_inButton then
    if s.m_bStopped then
      { state := { s with m_bStopped := false, m_counter := 0 }
        sent := [.iterationTrigger { time := e.time, payload := s.m_button }], raised := none }
    else
      { state := s, sent := [], raised := none }
  else
    { state := s, sent := [], raised := none }

/-- The handler `TriggerLoop::iterationDone`; `now` is the value of `Measurement::now()`.
The result is `none` where the behaviour of the source is undefined (`m_counter ++` beyond
the largest `int`). -/
def TriggerLoop.iterationDone (s : TriggerLoop) (e : Measurement Int) (now : Nat) :
    Option (Step TriggerLoop TriggerLoopOutput) :=
  if s.m_counter + 1 ≥ 2 ^ 31 then none
  else if s.m_size > 0 ∧ s.m_counter + 1 = s.m_size then
    some { state := { s with m_counter := s.m_counter + 1, m_bStopped := true }
           sent := [.loopDone { time := e.time, payload := s.m_button }], raised := none }
  else
    some { state := { s with m_counter := s.m_counter + 1 }
           sent := [.iterationTrigger { time := now, payload := s.m_button }], raised := none }

/-- The component after a sequence of `IterationDone` events (each with the clock value read
while it is handled), with everything sent; `none` once a call has undefined behaviour. -/
def TriggerLoop.iterate (s : TriggerLoop) :
    List (Measurement Int × Nat) → Option (TriggerLoop × List TriggerLoopOutput)
  | [] => some (s, [])
  | (e, now) :: rest =>
    match s.iterationDone e now with
    | none => none
    | some st =>
      match TriggerLoop.iterate st.state rest with
      | none => none
      | some (s2, out) => some (s2, st.sent ++ out)

/-! ## ListGate (`utComponents/ListGate.cpp`) -/

/-- Member variables of `ListGate< EventType >`; `m_inCount` is an `unsigned int`. -/
structure ListGate where
  m_inCount : Nat
  m_event : Int
deriving DecidableEq, Repr

/-- The constructor `ListGate::ListGate`: `event` is the characters of the `event` attribute
when present (as `char` values). -/
def ListGate.init (event : Option (List Int)) : ListGate :=
  { m_inCount := 0
    m_event :=
      match event with
      | none => 32
      | some [] => -1
      | some (c :: _) => c }

/-- The handler `ListGate::openGate` for the button event `b`; `list` is the list pulled from
`Coordinates` for `b.time()`.  `list->at( m_inCount )` throws `std::out_of_range` when the
index is not below the size of the list; the increment of the `unsigned int` counter wraps. -/
def ListGate.openGate {α : Type} (g : ListGate) (list : List α) (b : Measurement Int) :
    Step ListGate (Measurement α) :=
  if g.m_event < 0 ∨ b.payload = g.m_event then
    match list[g.m_inCount]? with
    | none => { state := g, sent := [], raised := some "std::out_of_range" }
    | some x =>
      { state :=
          { g with
            m_inCount :=
              if (g.m_inCount + 1) % uintModulus = list.length then 0
              else (g.m_inCount + 1) % uintModulus }
        sent := [{ time := b.time, payload := x }], raised := none }
  else
    { state := g, sent := [], raised := none }

/-- The component after a sequence of button events, the `Coordinates` input supplying the
same `list` at every pull. -/
def ListGate.run {α : Type} (g : ListGate) (list : List α) : List (Measurement Int) → ListGate
  | [] => g
  | b :: rest => ListGate.run (g.openGate list b).state list rest

/-- Whether a button event matches the configured event `m_event` (any event when `m_event`
is negative). -/
def ListGate.isMatchingSignal (m_event : Int) (b : Measurement Int) : Bool :=
  decide (m_event < 0 ∨ b.payload = m_event)

/-! ## PoseEstimation2D3D (`utComponents/2D3DPoseEstimation.cpp`) -/

/-- Member variables of `PoseEstimation2D3D`; `m_iMinCorrespondences` is an `unsigned int` and
`m_method` the value of the enumeration `Calibration::InitializationMethod`. -/
structure PoseEstimation2D3D where
  m_iMinCorrespondences : Nat
  m_method : Nat
deriving DecidableEq, Repr

/-- The constructor `PoseEstimation2D3D::PoseEstimation2D3D`: `initPoseMethod` and
`min2d3dCorresp` are the attributes of these names when present, `PLANAR_HOMOGRAPHY` the value
of that enumerator. -/
def PoseEstimation2D3D.init (PLANAR_HOMOGRAPHY : Nat) (initPoseMethod min2d3dCorresp : Option Nat) :
    PoseEstimation2D3D :=
  { m_iMinCorrespondences := if min2d3dCorresp.getD 4 < 4 then 4 else min2d3dCorresp.getD 4
    m_method := initPoseMethod.getD PLANAR_HOMOGRAPHY }

/-- The method `PoseEstimation2D3D::compute`; `computePose` is `Calibration::computePose`,
whose exceptions pass through.  The result is the error raised or the measurement sent on
`Output`. -/
def PoseEstimation2D3D.compute {P2 P3 C E : Type}
    (computePose : List P2 → List P3 → C → Nat → Except String E)
    (c : PoseEstimation2D3D) (ts : Nat) (p2d : List P2) (p3d : List P3) (cam : C) :
    Except String (Measurement E) :=
  if p2d.length < 4 then
    .error ("2D3D pose estimation configured to use at least "
      ++ toString c.m_iMinCorrespondences ++ " points")
  else
    match computePose p2d p3d cam c.m_method with
    | .error e => .error e
    | .ok errPose => .ok { time := ts, payload := errPose }

/-! ## ResidualErrorComponent (`utComponents/ResidualError.cpp`) -/

/-- The method `ResidualErrorComponent::compute` on points given by their coordinates, the
`double` values embedded as exact rationals; `norm_2` is `boost::numeric::ublas::norm_2`.  The
result is `none` when the loop does not end (its `unsigned int` counter cannot reach a size of
`2^32` or more), otherwise the error raised or the measurement sent on `Residual`. -/
def ResidualErrorComponent.compute (norm_2 : List ℚ → ℚ) (t : Nat)
    (left right : List (List ℚ)) : Option (Except String (Measurement ℚ)) :=
  if left.length ≠ right.length ∨ left.length < 1 then
    some (.error "Illegal number of correspondences")
  else if uintModulus ≤ left.length then none
  else
    some (.ok
      { time := t
        payload :=
          (List.zipWith (fun l r => norm_2 (List.zipWith (fun x y => x - y) l r)) left right).foldl
            (fun residual d => residual + d) 0 })

/-- The value documented under "Operation" of `ResidualErrorComponent`: the sum of the squared
euclidean distances of the point correspondences, divided by the amount of correspondences. -/
def ResidualErrorComponent.documentedResidual (left right : List (List ℚ)) : ℚ :=
  (List.zipWith (fun l r => ((List.zipWith (fun x y => x - y) l r).map fun d => d * d).sum)
      left right).sum / (left.length : ℚ)

/-! ## TimeComplementaryFusion (`utComponents/TimeComplementaryFusion.cpp`) -/

/-- Member variables of `TimeComplementaryFusion< EventType >`: `m_eventATimestamp` is a
`Measurement::Timestamp` (unsigned), `m_delayTime` a `long int`. -/
structure TimeComplementaryFusion where
  m_eventATimestamp : Nat
  m_delayTime : Int
deriving DecidableEq, Repr

/-- The conversion `static_cast< long int >( x )` of a `double`, embedded as an exact rational:
truncation towards zero, `none` where the value is outside the range of `long int` (undefined
behaviour). -/
def castToLong (x : ℚ) : Option Int :=
  if -(2 ^ 63 : ℚ) < x + 1 ∧ x < 2 ^ 63 then
    some (if 0 ≤ x then ⌊x⌋ else ⌈x⌉)
  else none

/-- The constructor `TimeComplementaryFusion::TimeComplementaryFusion`: `delayTime` is the
number read from the `delayTime` attribute when present.  The initial value `-1` of the
unsigned `m_eventATimestamp` is the largest timestamp. -/
def TimeComplementaryFusion.init (delayTime : Option ℚ) : Option TimeComplementaryFusion :=
  match delayTime with
  | none => some { m_eventATimestamp := timestampModulus - 1, m_delayTime := 500 }
  | some ms =>
    (castToLong (ms * 1000000)).map fun d =>
      { m_eventATimestamp := timestampModulus - 1, m_delayTime := d }

/-- The handler `TimeComplementaryFusion::poseInA`. -/
def TimeComplementaryFusion.poseInA {α : Type} (s : TimeComplementaryFusion)
    (m : Measurement α) : Step TimeComplementaryFusion (Measurement α) :=
  { state := { s with m_eventATimestamp := m.time % timestampModulus }
    sent := [m], raised := none }

/-- The handler `TimeComplementaryFusion::poseInB`.  `m_eventATimestamp < 0` compares an
unsigned value; the product `m_delayTime * 1000000` is a `long int` product (`none` where it
overflows: undefined behaviour), converted to the unsigned type of `timeDiff` for the
comparison. -/
def TimeComplementaryFusion.poseInB {α : Type} (s : TimeComplementaryFusion)
    (m : Measurement α) : Option (Step TimeComplementaryFusion (Measurement α)) :=
  if (s.m_eventATimestamp : Int) < 0 then
    some { state := s, sent := [m], raised := none }
  else if s.m_delayTime * 1000000 < -(2 ^ 63 : Int) ∨ (2 ^ 63 : Int) ≤ s.m_delayTime * 1000000 then
    none
  else if ((timestampSub m.time s.m_eventATimestamp : Nat) : Int)
      > (s.m_delayTime * 1000000) % (2 ^ 64 : Int) then
    some { state := s, sent := [m], raised := none }
  else
    some { state := s, sent := [], raised := none }

/-! ## Theorems -/

/-! ### Buffer -/

theorem RingBuffer.ringRun_append {α : Type} (cs ds : List (α × Nat)) (rb : RingBuffer α) :
    RingBuffer.run rb (cs ++ ds) = (RingBuffer.run rb cs).bind fun s => RingBuffer.run s ds := by
  induction cs generalizing rb with
  | nil => simp [RingBuffer.run]
  | cons c cs ih =>
    obtain ⟨x, t⟩ := c
    simp only [List.cons_append, RingBuffer.run]
    cases h : rb.compute x t with
    | none => simp
    | some st => simpa using ih st.state

/-- While the ring is being filled, a call that leaves it short of its capacity raises and
sends nothing. -/
theorem RingBuffer.compute_filling {α : Type} (N : Nat) (l : List α) (x : α) (t : Nat)
    (h : l.length + 1 < N) :
    RingBuffer.compute { m_size := N, m_position_buffer := 0, m_list := l, capacity := N } x t
      = some { state := { m_size := N, m_position_buffer := 0, m_list := l ++ [x], capacity := N }
               sent := []
               raised := some "Ring buffer not full. need to add more measurements." } := by
  have h1 : l.length < N := by omega
  simp [RingBuffer.compute, h1, h]

/-- The call that fills the ring sends the whole list. -/
theorem RingBuffer.compute_fills {α : Type} (N : Nat) (l : List α) (x : α) (t : Nat)
    (h : l.length + 1 = N) :
    RingBuffer.compute { m_size := N, m_position_buffer := 0, m_list := l, capacity := N } x t
      = some { state := { m_size := N, m_position_buffer := 0, m_list := l ++ [x], capacity := N }
               sent := [{ time := t, payload := l ++ [x] }]
               raised := none } := by
  have h1 : l.length < N := by omega
  have h2 : ¬ (l.length + 1 < N) := by omega
  simp [RingBuffer.compute, h1, h2]

/-- Up to `N` calls on a fresh ring buffer of capacity `N` append the received values. -/
theorem RingBuffer.run_fill {α : Type} (N : Nat) (calls : List (α × Nat))
    (h : calls.length ≤ N) :
    RingBuffer.run (RingBuffer.init (some N)) calls
      = some { m_size := N, m_position_buffer := 0, m_list := calls.map Prod.fst,
               capacity := N } := by
  induction calls using List.reverseRecOn with
  | nil => simp [RingBuffer.run, RingBuffer.init]
  | append_singleton pre c ih =>
    obtain ⟨x, t⟩ := c
    have hlen : pre.length + 1 ≤ N := by simpa using h
    rw [RingBuffer.ringRun_append, ih (by omega)]
    simp only [Option.some_bind, RingBuffer.run, List.map_append, List.map_cons, List.map_nil]
    rcases Nat.lt_or_eq_of_le hlen with hlt | heq
    · rw [RingBuffer.compute_filling N (pre.map Prod.fst) x t (by simpa using hlt)]
    · rw [RingBuffer.compute_fills N (pre.map Prod.fst) x t (by simpa using heq)]

theorem RingBuffer.rotate_set_succ {α : Type} (l : List α) (p : Nat) (x : α)
    (hp : p < l.length) :
    (l.set p x).rotate ((p + 1) % l.length) = (l.rotate p).tail ++ [x] := by
  have hl : (l.set p x).length = l.length := List.length_set ..
  conv_lhs => rw [← hl]
  rw [List.rotate_mod, List.rotate_eq_drop_append_take (by rw [hl]; omega),
    List.rotate_eq_drop_append_take (le_of_lt hp)]
  rw [List.drop_eq_getElem_cons hp]
  have ht : List.take p (l.set p x) = List.take p l := by
    rw [List.set_eq_take_append_cons_drop, if_pos hp]
    rw [List.take_append_of_le_length (by simp [le_of_lt hp])]
    simp [List.take_take]
  simp [List.drop_set, List.take_succ, hp, ht]

theorem RingBuffer.mod_ne_of_recent (N j n : Nat) (hj : j < n) (hn : n + 1 ≤ j + N) :
    n % N ≠ j % N := by
  intro h
  have hd : N ∣ n - j := (Nat.modEq_iff_dvd' (le_of_lt hj)).1 h.symm
  have := Nat.le_of_dvd (by omega) hd
  omega

/-- One call on a full ring buffer overwrites the oldest value, sends the list and keeps the
ring invariant. -/
theorem RingBuffer.compute_full {α : Type} (N : Nat) (hN : 1 ≤ N) (xs : List α)
    (s : RingBuffer α) (x : α) (t : Nat) (hlen : N ≤ xs.length)
    (hs : RingBuffer.HoldsLast N xs s) :
    ∃ st, s.compute x t = some st ∧ st.raised = none ∧
      st.sent = [{ time := t, payload := st.state.m_list }] ∧
      RingBuffer.HoldsLast N (xs ++ [x]) st.state := by
  obtain ⟨hsz, hcap, hl, hpos, hrot, hslot⟩ := hs
  have hplt : s.m_position_buffer < s.m_list.length := by
    rw [hpos, hl]; exact Nat.mod_lt _ (by omega)
  have hnotlt : ¬ (s.m_list.length < s.capacity) := by omega
  have hc : s.m_position_buffer < s.m_list.length ∧ s.m_size ≠ 0 := ⟨hplt, by omega⟩
  refine ⟨{ state := { s with m_list := s.m_list.set s.m_position_buffer x,
                               m_position_buffer := (s.m_position_buffer + 1) % s.m_size },
            sent := [{ time := t, payload := s.m_list.set s.m_position_buffer x }],
            raised := none },
    by simp only [RingBuffer.compute, if_neg hnotlt, if_pos hc], rfl, rfl, ?_⟩
  refine ⟨hsz, hcap, by simp [hl], ?_, ?_, ?_⟩
  · simp only [hsz, hpos, List.length_append, List.length_singleton]
    exact Nat.mod_add_mod _ _ _
  · have h1 := RingBuffer.rotate_set_succ s.m_list s.m_position_buffer x hplt
    rw [hl] at h1
    simp only [hsz]
    rw [h1, hrot, List.tail_drop, List.length_append, List.length_singleton,
      List.drop_append_of_le_length (by omega)]
    congr 2
    omega
  · intro j hj hrecent
    simp only [List.length_append, List.length_singleton] at hj hrecent
    by_cases hjn : j = xs.length
    · subst hjn
      rw [← hpos, List.getElem?_set_self hplt]
      simp
    · have hj2 : j < xs.length := by omega
      have hne : s.m_position_buffer ≠ j % N := by
        rw [hpos]; exact RingBuffer.mod_ne_of_recent N j xs.length hj2 hrecent
      rw [List.getElem?_set_ne hne, List.getElem?_append_left hj2]
      exact hslot j hj2 (by omega)

/-- After at least `N` calls the ring buffer of capacity `N` holds the last `N` values. -/
theorem RingBuffer.run_full {α : Type} (N : Nat) (hN : 1 ≤ N) (calls : List (α × Nat))
    (h : N ≤ calls.length) :
    ∃ s, RingBuffer.run (RingBuffer.init (some N)) calls = some s ∧
      RingBuffer.HoldsLast N (calls.map Prod.fst) s := by
  induction calls using List.reverseRecOn with
  | nil => simp at h; omega
  | append_singleton pre c ih =>
    obtain ⟨x, t⟩ := c
    have hlen : N ≤ pre.length + 1 := by simpa using h
    rcases Nat.lt_or_eq_of_le hlen with hlt | heq
    · obtain ⟨s, hrun, hs⟩ := ih (by omega)
      obtain ⟨st, hst, -, -, hinv⟩ :=
        RingBuffer.compute_full N hN (pre.map Prod.fst) s x t (by simpa using (by omega : N ≤ pre.length)) hs
      refine ⟨st.state, ?_, by simpa using hinv⟩
      rw [RingBuffer.ringRun_append, hrun]
      simp [RingBuffer.run, hst]
    · refine ⟨_, RingBuffer.run_fill N (pre ++ [(x, t)]) (by simp; omega), ?_⟩
      have hl : (pre ++ [(x, t)]).length = N := by simp; omega
      refine ⟨rfl, rfl, by simpa using hl, ?_, ?_, ?_⟩
      · simp only [List.length_map, hl, Nat.mod_self]
      · simp only [List.length_map, hl, Nat.sub_self, List.drop_zero, List.rotate_zero]
      · intro j hj _
        rw [List.length_map, hl] at hj
        rw [Nat.mod_eq_of_lt hj]

/-- C3: for every capacity `N >= 1` and every `j` with `1 <= j < N`, the `j`-th call of `compute`
on a fresh ring buffer (the call after the `j - 1` calls `pre`) is defined, raises an error
and sends nothing on the output port. -/
theorem RingBuffer.compute_raises_before_full {α : Type} (N j : Nat) (pre : List (α × Nat))
    (x : α) (t : Nat) (hpre : pre.length + 1 = j) (hjN : j < N) :
    ∃ s st, RingBuffer.run (RingBuffer.init (some N)) pre = some s ∧
      s.compute x t = some st ∧ st.sent = [] ∧
      st.raised = some "Ring buffer not full. need to add more measurements." := by
  refine ⟨_, _, RingBuffer.run_fill N pre (by omega),
    RingBuffer.compute_filling N (pre.map Prod.fst) x t (by simp; omega), rfl, rfl⟩

/-- Witness for C3: capacity 3, second call. -/
theorem RingBuffer.compute_raises_before_full_witness :
    ∃ s st, RingBuffer.run (RingBuffer.init (some 3)) [((10 : Nat), 1)] = some s ∧
      s.compute 20 2 = some st ∧ st.sent = [] ∧
      st.raised = some "Ring buffer not full. need to add more measurements." :=
  RingBuffer.compute_raises_before_full 3 2 [((10 : Nat), 1)] 20 2 (by decide) (by decide)

/-- C4: for every capacity `N >= 1`, the `N`-th call of `compute( t )` on a fresh ring buffer
sends exactly one output list, stamped `t`, of length exactly `N`, holding the `N` received
values in arrival order. -/
theorem RingBuffer.compute_sends_when_full {α : Type} (N : Nat) (pre : List (α × Nat))
    (x : α) (t : Nat) (hpre : pre.length + 1 = N) :
    ∃ s st, RingBuffer.run (RingBuffer.init (some N)) pre = some s ∧
      s.compute x t = some st ∧ st.raised = none ∧
      st.sent = [{ time := t, payload := pre.map Prod.fst ++ [x] }] ∧
      (pre.map Prod.fst ++ [x]).length = N := by
  refine ⟨_, _, RingBuffer.run_fill N pre (by omega),
    RingBuffer.compute_fills N (pre.map Prod.fst) x t (by simpa using hpre), rfl, rfl, ?_⟩
  simpa using hpre

/-- Witness for C4: capacity 3, third call. -/
theorem RingBuffer.compute_sends_when_full_witness :
    ∃ s st, RingBuffer.run (RingBuffer.init (some 3)) [((10 : Nat), 1), (20, 2)] = some s ∧
      s.compute 30 3 = some st ∧ st.raised = none ∧
      st.sent = [{ time := 3, payload := [((10 : Nat), 1), (20, 2)].map Prod.fst ++ [30] }] ∧
      ([((10 : Nat), 1), (20, 2)].map Prod.fst ++ [30]).length = 3 :=
  RingBuffer.compute_sends_when_full 3 [((10 : Nat), 1), (20, 2)] 30 3 (by decide)

/-- C5: for every capacity `N >= 1` and every `k >= 1`, the `(N+k)`-th call of `compute` is
defined and sends one list `out` of length exactly `N` that is a rearrangement of the `N` most
recently received values (the `k` oldest are gone); read from the write position it lists them
in arrival order; the value with arrival index `j` (counted from 0) sits in slot `j mod N`;
and the overwrite index is below `N` before and after the call. -/
theorem RingBuffer.compute_overwrites_oldest {α : Type} (N k : Nat) (pre : List (α × Nat))
    (x : α) (t : Nat) (hN : 1 ≤ N) (hk : 1 ≤ k) (hpre : pre.length + 1 = N + k) :
    ∃ s st out, RingBuffer.run (RingBuffer.init (some N)) pre = some s ∧
      s.compute x t = some st ∧ st.raised = none ∧
      st.sent = [{ time := t, payload := out }] ∧
      out.length = N ∧
      out.Perm ((pre.map Prod.fst ++ [x]).drop k) ∧
      out.rotate st.state.m_position_buffer = (pre.map Prod.fst ++ [x]).drop k ∧
      (∀ j, k ≤ j → j < N + k → out[j % N]? = (pre.map Prod.fst ++ [x])[j]?) ∧
      s.m_position_buffer < N ∧ st.state.m_position_buffer < N := by
  obtain ⟨s, hrun, hs⟩ := RingBuffer.run_full N hN pre (by omega)
  obtain ⟨st, hst, hraised, hsent, hsz, hcap, hl, hpos, hrot, hslot⟩ :=
    RingBuffer.compute_full N hN (pre.map Prod.fst) s x t (by simp; omega) hs
  have hlen : (pre.map Prod.fst ++ [x]).length = N + k := by simpa using hpre
  have hdrop : (pre.map Prod.fst ++ [x]).length - N = k := by omega
  rw [hdrop] at hrot
  refine ⟨s, st, st.state.m_list, hrun, hst, hraised, hsent, hl, ?_, hrot, ?_, ?_, ?_⟩
  · exact (List.rotate_perm _ _).symm.trans (by rw [hrot])
  · intro j hkj hj
    exact hslot j (by omega) (by omega)
  · rw [hs.2.2.2.1]; exact Nat.mod_lt _ (by omega)
  · rw [hpos]; exact Nat.mod_lt _ (by omega)

/-- Witness for C5: capacity 2, third call (`k = 1`). -/
theorem RingBuffer.compute_overwrites_oldest_witness :
    ∃ s st out, RingBuffer.run (RingBuffer.init (some 2)) [((10 : Nat), 1), (20, 2)] = some s ∧
      s.compute 30 3 = some st ∧ st.raised = none ∧
      st.sent = [{ time := 3, payload := out }] ∧
      out.length = 2 ∧
      out.Perm (([((10 : Nat), 1), (20, 2)].map Prod.fst ++ [30]).drop 1) ∧
      out.rotate st.state.m_position_buffer
        = ([((10 : Nat), 1), (20, 2)].map Prod.fst ++ [30]).drop 1 ∧
      (∀ j, 1 ≤ j → j < 2 + 1 →
        out[j % 2]? = ([((10 : Nat), 1), (20, 2)].map Prod.fst ++ [30])[j]?) ∧
      s.m_position_buffer < 2 ∧ st.state.m_position_buffer < 2 :=
  RingBuffer.compute_overwrites_oldest 2 1 [((10 : Nat), 1), (20, 2)] 30 3
    (by decide) (by decide) (by decide)

/-! ### WindowedAggregator -/

/-- C7: `CastComponent< PositionList, Position >::compute( t )` (and the `PositionList2` to
`Position2D` variant, which has the same body) raises "list size not 1", sending nothing, if
and only if the length of the input list differs from 1 (for instance 0 or 2); for a list
with the single element `v` it sends exactly one measurement with payload `v` stamped `t` and
does not raise; the list extraction `convert` raises under the same condition. -/
theorem CastComponent.computeListToElement_spec {α : Type} (input : List α) (t : Nat) :
    (((CastComponent.computeListToElement input t).raised = some "list size not 1" ∧
        (CastComponent.computeListToElement input t).sent = []) ↔ input.length ≠ 1) ∧
    ((∃ msg, (CastComponent.computeListToElement input t).raised = some msg)
        ↔ input.length ≠ 1) ∧
    (∀ v : α, CastComponent.computeListToElement [v] t
        = { state := (), sent := [{ time := t, payload := v }], raised := none }) ∧
    (∀ v w : α, (CastComponent.computeListToElement ([] : List α) t).raised
          = some "list size not 1" ∧
        (CastComponent.computeListToElement [v, w] t).raised = some "list size not 1") ∧
    (∀ u : Nat, CastComponent.convert { time := u, payload := input }
        = .error "list size not 1" ↔ input.length ≠ 1) := by
  refine ⟨?_, ?_, ?_, ?_, ?_⟩
  · by_cases h : input.length = 1
    · obtain ⟨v, rfl⟩ := List.length_eq_one.1 h
      simp [CastComponent.computeListToElement]
    · simp [CastComponent.computeListToElement, h]
  · by_cases h : input.length = 1
    · obtain ⟨v, rfl⟩ := List.length_eq_one.1 h
      simp [CastComponent.computeListToElement]
    · simp [CastComponent.computeListToElement, h]
  · intro v
    simp [CastComponent.computeListToElement]
  · intro v w
    simp [CastComponent.computeListToElement]
  · intro u
    by_cases h : input.length = 1
    · obtain ⟨v, rfl⟩ := List.length_eq_one.1 h
      simp [CastComponent.convert]
    · simp [CastComponent.convert, h]

/-! ### RANSACAbsoluteOrientationComponent -/

/-- C8: `compute` raises "Illegal number of correspondences" without calling the estimator (and
without sending) if and only if the lists on `InputA` and `InputB` have different lengths or
`InputA` has fewer than 3 elements; exactly for lists of equal length at least 3 the
validation passes, the estimator is called once and exactly one pose stamped `t` is sent. -/
theorem RANSACAbsoluteOrientationComponent.compute_spec {V P : Type}
    (Ransac : List V → List V → P × Nat) (a b : List V) (t : Nat) :
    (((RANSACAbsoluteOrientationComponent.compute Ransac a b t).raised
          = some "Illegal number of correspondences" ∧
        (RANSACAbsoluteOrientationComponent.compute Ransac a b t).estimatorCalls = 0 ∧
        (RANSACAbsoluteOrientationComponent.compute Ransac a b t).sent = [])
      ↔ (a.length ≠ b.length ∨ a.length < 3)) ∧
    (((RANSACAbsoluteOrientationComponent.compute Ransac a b t).raised = none ∧
        (RANSACAbsoluteOrientationComponent.compute Ransac a b t).estimatorCalls = 1 ∧
        (RANSACAbsoluteOrientationComponent.compute Ransac a b t).sent
          = [{ time := t, payload := (Ransac a b).1 }])
      ↔ (a.length = b.length ∧ 3 ≤ a.length)) := by
  by_cases h : a.length ≠ b.length ∨ a.length < 3
  · have h2 : ¬ (a.length = b.length ∧ 3 ≤ a.length) := by omega
    simp only [RANSACAbsoluteOrientationComponent.compute, if_pos h]
    simp [h, h2]
  · have h2 : a.length = b.length ∧ 3 ≤ a.length := by omega
    simp only [RANSACAbsoluteOrientationComponent.compute, if_neg h]
    simp [h2.1]
    omega

/-! ### CollectorComponent -/

/-- C9: for every request time `t`, if pulling the "List" input fails with a Ubitrack
exception, `sendOutput( t )` does not raise and returns a list stamped `t`: the one-element
list holding the "Input" measurement when that pull succeeds, and the empty list when that
pull fails too (with either kind of exception). -/
theorem CollectorComponent.sendOutput_list_unavailable {α : Type} (msg : String) (t : Nat) :
    (∀ m : Measurement α,
      CollectorComponent.sendOutput (.utilException msg) (.ok m) t
        = .ok (some { time := t, payload := [] ++ [m.payload] })) ∧
    (∀ msg2 : String,
      CollectorComponent.sendOutput (α := α) (.utilException msg) (.utilException msg2) t
        = .ok (some { time := t, payload := [] })) ∧
    (∀ msg2 : String,
      CollectorComponent.sendOutput (α := α) (.utilException msg) (.stdException msg2) t
        = .ok (some { time := t, payload := [] })) := by
  refine ⟨?_, ?_, ?_⟩ <;> intro m <;> rfl

/-! ### TimeSpaceConverter -/

theorem TimeSpaceConverter.converterRun_append {α : Type} (pull : Nat → Except String α)
    (cs ds : List (α × Nat)) (c : TimeSpaceConverter α) :
    TimeSpaceConverter.run pull c (cs ++ ds)
      = TimeSpaceConverter.run pull (TimeSpaceConverter.run pull c cs) ds := by
  induction cs generalizing c with
  | nil => rfl
  | cons d cs ih =>
    obtain ⟨x, t⟩ := d
    simpa [TimeSpaceConverter.run] using ih _

/-- With a push input, after `m` calls the converter holds the last `m mod N` values. -/
theorem TimeSpaceConverter.run_push {α : Type} (pull : Nat → Except String α) (N : Nat)
    (hN : 1 ≤ N) (calls : List (α × Nat)) :
    TimeSpaceConverter.run pull (TimeSpaceConverter.init (some N) true) calls
      = { m_size := N
          m_list := (calls.map Prod.fst).drop (calls.length - calls.length % N)
          inputIsPush := true } := by
  induction calls using List.reverseRecOn with
  | nil => simp [TimeSpaceConverter.run, TimeSpaceConverter.init]
  | append_singleton pre c ih =>
    obtain ⟨x, t⟩ := c
    rw [TimeSpaceConverter.converterRun_append, ih]
    have hmod : pre.length % N < N := Nat.mod_lt _ (by omega)
    have hle : pre.length % N ≤ pre.length := Nat.mod_le _ _
    have hlen : ((pre.map Prod.fst).drop (pre.length - pre.length % N) ++ [x]).length
        = pre.length % N + 1 := by
      simp; omega
    have hsucc : (pre.length + 1) % N = (pre.length % N + 1) % N := (Nat.mod_add_mod _ _ _).symm
    simp only [TimeSpaceConverter.run, TimeSpaceConverter.compute, hlen, List.length_append,
      List.length_singleton, List.map_append, List.map_cons, List.map_nil]
    by_cases h : pre.length % N + 1 < N
    · rw [if_pos h, hsucc, Nat.mod_eq_of_lt h]
      simp only [if_true]
      rw [List.drop_append_of_le_length (by simp)]
      congr 3
      omega
    · have heq : pre.length % N + 1 = N := by omega
      rw [if_neg h, hsucc, heq, Nat.mod_self]
      simp

/-- C10: with a push input and size `N >= 1`, no `compute` call raises; the call number `n`
sends an output exactly when `n` is a multiple of `N` (so on calls `N, 2N, 3N, ...` and on no
other), and that output is one list stamped with the time of the call, of length exactly `N`,
holding in arrival order the `N` values received since the previous output. -/
theorem TimeSpaceConverter.compute_push_emits_every_N {α : Type}
    (pull : Nat → Except String α) (N : Nat) (pre : List (α × Nat)) (x : α) (t : Nat)
    (hN : 1 ≤ N) :
    ((TimeSpaceConverter.run pull (TimeSpaceConverter.init (some N) true) pre).compute
        pull x t).raised = none ∧
    (((pre.length + 1) % N = 0 ∧
        ((pre.map Prod.fst ++ [x]).drop (pre.length + 1 - N)).length = N ∧
        ((TimeSpaceConverter.run pull (TimeSpaceConverter.init (some N) true) pre).compute
            pull x t).sent
          = [{ time := t, payload := (pre.map Prod.fst ++ [x]).drop (pre.length + 1 - N) }]) ∨
      ((pre.length + 1) % N ≠ 0 ∧
        ((TimeSpaceConverter.run pull (TimeSpaceConverter.init (some N) true) pre).compute
            pull x t).sent = [])) := by
  rw [TimeSpaceConverter.run_push pull N hN pre]
  have hmod : pre.length % N < N := Nat.mod_lt _ (by omega)
  have hle : pre.length % N ≤ pre.length := Nat.mod_le _ _
  have hlen : ((pre.map Prod.fst).drop (pre.length - pre.length % N) ++ [x]).length
      = pre.length % N + 1 := by
    simp; omega
  have hsucc : (pre.length + 1) % N = (pre.length % N + 1) % N := (Nat.mod_add_mod _ _ _).symm
  simp only [TimeSpaceConverter.compute, hlen]
  by_cases h : pre.length % N + 1 < N
  · rw [if_pos h, hsucc, Nat.mod_eq_of_lt h]
    simp
  · have heq : pre.length % N + 1 = N := by omega
    have hge : N ≤ pre.length + 1 := by omega
    rw [if_neg h, hsucc, heq, Nat.mod_self]
    refine ⟨rfl, Or.inl ⟨rfl, by simp; omega, ?_⟩⟩
    rw [List.drop_append_of_le_length (by simp; omega)]
    have : pre.length - pre.length % N = pre.length + 1 - N := by omega
    rw [this]

/-- Witness for C10: size 2, second call. -/
theorem TimeSpaceConverter.compute_push_emits_every_N_witness :
    ((TimeSpaceConverter.run (fun _ => .error "") (TimeSpaceConverter.init (some 2) true)
        [((10 : Nat), 1)]).compute (fun _ => .error "") 20 2).sent
      = [{ time := 2, payload := [10, 20] }] := by
  have h := TimeSpaceConverter.compute_push_emits_every_N (fun _ => .error "") 2
    [((10 : Nat), 1)] 20 2 (by decide)
  rcases h.2 with ⟨-, -, h3⟩ | ⟨h1, -⟩
  · simpa using h3
  · exact absurd (by decide) h1

/-! ### PoseKalmanFilterComponent -/

theorem PoseKalmanFilterComponent.hasQueued_eq_false (l : List Nat) :
    PoseKalmanFilterComponent.hasQueued l = false ↔ ∀ q ∈ l, q = 0 := by
  induction l with
  | nil => simp [PoseKalmanFilterComponent.hasQueued]
  | cons q rest ih =>
    by_cases h : q > 0
    · simp only [PoseKalmanFilterComponent.hasQueued, if_pos h, List.mem_cons]
      constructor
      · intro h2; cases h2
      · intro h2
        have := h2 q (Or.inl rfl)
        omega
    · have hq : q = 0 := by omega
      simp only [PoseKalmanFilterComponent.hasQueued, if_neg h, ih, List.mem_cons]
      constructor
      · rintro h2 x (rfl | hx)
        · exact hq
        · exact h2 x hx
      · intro h2 x hx
        exact h2 x (Or.inr hx)

/-- C11: after integrating a measurement with time `t`, `checkSend( t )` pushes the predicted
pose for `t` on the push output if and only if that output is connected and the queued-event
count of every input port (pose, rotation, rotation-velocity and inverse-rotation-velocity
ports) is zero; otherwise nothing is pushed. -/
theorem PoseKalmanFilterComponent.checkSend_iff_idle {K E M : Type}
    (c : PoseKalmanFilterComponent K) (addMeasurement : K → Measurement M → K)
    (predictPose : K → Nat → E) (m : Measurement M) (t : Nat) :
    (c.checkSend predictPose t = [predictPose c.m_pKF t] ↔
      (c.outPushConnected = true ∧ (∀ q ∈ c.m_inPosePorts, q = 0) ∧
        (∀ q ∈ c.m_inRotationPorts, q = 0) ∧ (∀ q ∈ c.m_inRotationVelocityPorts, q = 0) ∧
        (∀ q ∈ c.m_inInverseRotationVelocityPorts, q = 0))) ∧
    (c.checkSend predictPose t = [] ↔
      ¬ (c.outPushConnected = true ∧ (∀ q ∈ c.m_inPosePorts, q = 0) ∧
        (∀ q ∈ c.m_inRotationPorts, q = 0) ∧ (∀ q ∈ c.m_inRotationVelocityPorts, q = 0) ∧
        (∀ q ∈ c.m_inInverseRotationVelocityPorts, q = 0))) ∧
    (c.receive addMeasurement predictPose m).raised = none ∧
    (c.receive addMeasurement predictPose m).sent
      = PoseKalmanFilterComponent.checkSend
          { c with m_pKF := addMeasurement c.m_pKF m } predictPose m.time := by
  have h1 := PoseKalmanFilterComponent.hasQueued_eq_false c.m_inPosePorts
  have h2 := PoseKalmanFilterComponent.hasQueued_eq_false c.m_inRotationPorts
  have h3 := PoseKalmanFilterComponent.hasQueued_eq_false c.m_inRotationVelocityPorts
  have h4 := PoseKalmanFilterComponent.hasQueued_eq_false c.m_inInverseRotationVelocityPorts
  refine ⟨?_, ?_, rfl, rfl⟩
  · unfold PoseKalmanFilterComponent.checkSend
    rw [← h1, ← h2, ← h3, ← h4]
    cases c.outPushConnected <;>
      cases PoseKalmanFilterComponent.hasQueued c.m_inPosePorts <;>
      cases PoseKalmanFilterComponent.hasQueued c.m_inRotationPorts <;>
      cases PoseKalmanFilterComponent.hasQueued c.m_inRotationVelocityPorts <;>
      cases PoseKalmanFilterComponent.hasQueued c.m_inInverseRotationVelocityPorts <;>
      simp
  · unfold PoseKalmanFilterComponent.checkSend
    rw [← h1, ← h2, ← h3, ← h4]
    cases c.outPushConnected <;>
      cases PoseKalmanFilterComponent.hasQueued c.m_inPosePorts <;>
      cases PoseKalmanFilterComponent.hasQueued c.m_inRotationPorts <;>
      cases PoseKalmanFilterComponent.hasQueued c.m_inRotationVelocityPorts <;>
      cases PoseKalmanFilterComponent.hasQueued c.m_inInverseRotationVelocityPorts <;>
      simp

/-! ### CalibWriter -/

theorem CalibWriter.receiveAll_append_single {α : Type} (w : CalibWriter α)
    (pre : List (Measurement α)) (n : Measurement α) :
    CalibWriter.receiveAll w (pre ++ [n]) = CalibWriter.eventIn (CalibWriter.receiveAll w pre) n := by
  unfold CalibWriter.receiveAll
  rw [List.foldl_append, List.foldl_cons, List.foldl_nil]

/-- When no timestamp sum wraps, the events written by `eventIn` are at least the minimum
write distance apart and `m_lastTS` is the time of the last written event. -/
theorem CalibWriter.receiveAll_spaced {α : Type} (events : List (Measurement α))
    (hfit : ∀ e ∈ events, e.time + 975000000 < 2 ^ 64) :
    (CalibWriter.receiveAll CalibWriter.init events).written.Chain'
        (fun a b => a.time + 975000000 ≤ b.time) ∧
    (CalibWriter.receiveAll CalibWriter.init events).m_lastTS + 975000000 < 2 ^ 64 ∧
    ∀ a, (CalibWriter.receiveAll CalibWriter.init events).written.getLast? = some a →
      a.time = (CalibWriter.receiveAll CalibWriter.init events).m_lastTS := by
  induction events using List.reverseRecOn with
  | nil =>
    refine ⟨?_, ?_, ?_⟩
    · simp [CalibWriter.receiveAll, CalibWriter.init]
    · simp [CalibWriter.receiveAll, CalibWriter.init]
    · intro a h
      simp [CalibWriter.receiveAll, CalibWriter.init] at h
  | append_singleton pre n ih =>
    obtain ⟨hch, hts, hlast⟩ := ih (fun e he => hfit e (by simp [he]))
    have hn : n.time + 975000000 < 2 ^ 64 := hfit n (by simp)
    rw [CalibWriter.receiveAll_append_single]
    generalize CalibWriter.receiveAll CalibWriter.init pre = w at hch hts hlast
    have hmod : (w.m_lastTS + CalibWriter.s_minWriteDistance) % timestampModulus
        = w.m_lastTS + 975000000 := by
      simp only [CalibWriter.s_minWriteDistance, timestampModulus]
      exact Nat.mod_eq_of_lt hts
    unfold CalibWriter.eventIn
    rw [hmod]
    by_cases h : w.m_lastTS + 975000000 > n.time
    · rw [if_pos h]
      exact ⟨hch, hts, hlast⟩
    · rw [if_neg h]
      refine ⟨?_, hn, ?_⟩
      · rw [List.chain'_append]
        refine ⟨hch, by simp, ?_⟩
        intro a ha b hb
        simp only [List.head?_cons, Option.mem_def, Option.some.injEq] at hb
        subst hb
        have := hlast a ha
        omega
      · intro a ha
        rw [List.getLast?_concat] at ha
        cases ha
        rfl

/-- C12, as stated, fails: an event stamped `2^64 - 1` is written, the 64-bit sum
`m_lastTS + s_minWriteDistance` then wraps to 974999999, and an event stamped 974999999 is
written next, although its time is not at least `a.time + 975000000`. -/
theorem CalibWriter.eventIn_writes_after_wrapped_sum :
    (CalibWriter.receiveAll CalibWriter.init
        [({ time := 18446744073709551615, payload := 1 } : Measurement Nat),
         { time := 974999999, payload := 2 }]).written
      = [{ time := 18446744073709551615, payload := 1 }, { time := 974999999, payload := 2 }] ∧
    ¬ (974999999 ≥ 18446744073709551615 + 975000000) := by
  decide

/-- C12 (amended): for every sequence of incoming events whose timestamps plus the minimum
write distance fit in 64 bits, any two successive writes performed by `eventIn`, for events
`a` and then `b`, satisfy `b.time >= a.time + 975000000` (`s_minWriteDistance`); an event
arriving less than that interval after the last written one is only remembered, not
written. -/
theorem CalibWriter.eventIn_write_distance {α : Type} (pre : List (Measurement α))
    (n : Measurement α) (hfit : ∀ e ∈ pre ++ [n], e.time + 975000000 < 2 ^ 64) :
    (CalibWriter.receiveAll CalibWriter.init (pre ++ [n])).written.Chain'
        (fun a b => a.time + CalibWriter.s_minWriteDistance ≤ b.time) ∧
    ∀ a, (CalibWriter.receiveAll CalibWriter.init pre).written.getLast? = some a →
      n.time < a.time + CalibWriter.s_minWriteDistance →
      (CalibWriter.receiveAll CalibWriter.init (pre ++ [n])).written
          = (CalibWriter.receiveAll CalibWriter.init pre).written ∧
        (CalibWriter.receiveAll CalibWriter.init (pre ++ [n])).m_lastMeasurement = some n := by
  refine ⟨(CalibWriter.receiveAll_spaced (pre ++ [n]) hfit).1, ?_⟩
  intro a ha hlt
  obtain ⟨-, hts, hlast⟩ := CalibWriter.receiveAll_spaced pre (fun e he => hfit e (by simp [he]))
  rw [CalibWriter.receiveAll_append_single]
  have hmod : ((CalibWriter.receiveAll CalibWriter.init pre).m_lastTS
        + CalibWriter.s_minWriteDistance) % timestampModulus
      = (CalibWriter.receiveAll CalibWriter.init pre).m_lastTS + 975000000 := by
    simp only [CalibWriter.s_minWriteDistance, timestampModulus]
    exact Nat.mod_eq_of_lt hts
  have hgt : (CalibWriter.receiveAll CalibWriter.init pre).m_lastTS + 975000000 > n.time := by
    rw [← hlast a ha]
    simpa [CalibWriter.s_minWriteDistance] using hlt
  unfold CalibWriter.eventIn
  rw [hmod, if_pos hgt]
  exact ⟨rfl, rfl⟩

/-- Witness for C12: events at 1 s, 1.5 s and 2 s; the second is only remembered. -/
theorem CalibWriter.eventIn_write_distance_witness :
    (CalibWriter.receiveAll CalibWriter.init
        ([({ time := 1000000000, payload := 1 } : Measurement Nat),
          { time := 1500000000, payload := 2 }] ++ [{ time := 2000000000, payload := 3 }])).written
      = [{ time := 1000000000, payload := 1 }, { time := 2000000000, payload := 3 }] ∧
    (CalibWriter.receiveAll CalibWriter.init
        ([({ time := 1000000000, payload := 1 } : Measurement Nat),
          { time := 1500000000, payload := 2 }] ++ [{ time := 2000000000, payload := 3 }])).written.Chain'
        (fun a b => a.time + CalibWriter.s_minWriteDistance ≤ b.time) :=
  ⟨by decide,
   (CalibWriter.eventIn_write_distance
      [({ time := 1000000000, payload := 1 } : Measurement Nat),
        { time := 1500000000, payload := 2 }] { time := 2000000000, payload := 3 }
      (by decide)).1⟩

/-- C13: for every non-empty sequence of incoming events followed by destruction of the
component, the content of the last write to the calibration file is the last event received:
an event skipped by the write throttle is kept pending and written by the destructor, and the
pending slot is cleared whenever a newer event is written directly. -/
theorem CalibWriter.destroy_leaves_last_event {α : Type} (pre : List (Measurement α))
    (e : Measurement α) :
    (CalibWriter.destroy (CalibWriter.receiveAll CalibWriter.init (pre ++ [e]))).written.getLast?
        = some e ∧
    ((CalibWriter.receiveAll CalibWriter.init (pre ++ [e])).m_lastMeasurement = some e ∨
      ((CalibWriter.receiveAll CalibWriter.init (pre ++ [e])).m_lastMeasurement = none ∧
        (CalibWriter.receiveAll CalibWriter.init (pre ++ [e])).written.getLast? = some e)) := by
  rw [CalibWriter.receiveAll_append_single]
  generalize CalibWriter.receiveAll CalibWriter.init pre = w
  unfold CalibWriter.eventIn
  by_cases h : (w.m_lastTS + CalibWriter.s_minWriteDistance) % timestampModulus > e.time
  · rw [if_pos h]
    simp [CalibWriter.destroy]
  · rw [if_neg h]
    simp [CalibWriter.destroy]

/-! ### NetworkSource -/

/-- C14: for every successfully received datagram shorter than `max_receive_length` whose
component identifier matches no registered component, `HandleReceive` raises no error, delivers
the payload to no component, logs the unknown identifier and re-arms the asynchronous
receive. -/
theorem SourceModule.HandleReceive_unknown_identifier (registered : List String)
    (parse : String → Option String) (max_receive_length length : Nat) (key : String)
    (hlen : length < max_receive_length) (hkey : key ∉ registered) :
    (SourceModule.HandleReceive registered parse max_receive_length .success length
        (.ok key)).raised = none ∧
    (SourceModule.HandleReceive registered parse max_receive_length .success length
        (.ok key)).delivered = [] ∧
    (SourceModule.HandleReceive registered parse max_receive_length .success length
        (.ok key)).rearmed = true ∧
    (SourceModule.HandleReceive registered parse max_receive_length .success length
        (.ok key)).logged
      = ["NetworkSink is sending with id=\"" ++ key ++
          "\", found no corresponding NetworkSource pattern with same id."] := by
  have h1 : ¬ (length ≥ max_receive_length) := by omega
  have h2 : registered.contains key = false := by simpa using hkey
  simp only [SourceModule.HandleReceive, if_neg h1, h2]
  simp

/-- Witness for C14: a 10-byte datagram for "b" when only "a" is registered. -/
theorem SourceModule.HandleReceive_unknown_identifier_witness :
    (SourceModule.HandleReceive ["a"] (fun _ => none) 1024 .success 10 (.ok "b")).raised = none ∧
    (SourceModule.HandleReceive ["a"] (fun _ => none) 1024 .success 10 (.ok "b")).delivered = [] ∧
    (SourceModule.HandleReceive ["a"] (fun _ => none) 1024 .success 10 (.ok "b")).rearmed = true :=
  have h := SourceModule.HandleReceive_unknown_identifier ["a"] (fun _ => none) 1024 10 "b"
    (by decide) (by decide)
  ⟨h.1, h.2.1, h.2.2.1⟩

/-- C15, as stated, fails: on a socket error other than `message_size` the handler logs the
error, throws it as an exception and does not call `async_receive_from` again. -/
theorem SourceModule.HandleReceive_socket_error_throws :
    SourceModule.HandleReceive ["a"] (fun _ => none) 1024 (.other "system:111") 0 (.ok "a")
      = { logged := ["Error receiving from socket: \"system:111\""], delivered := []
          raised := some "Error receiving from socket: \"system:111\"", rearmed := false } := by
  decide

/-- C15 (amended): for every receive completion reporting a socket error other than
`message_size`, `HandleReceive` logs the error, drops the affected packet (no component
receives it), raises the error as an exception and does not re-arm the asynchronous receive;
a completion reporting `message_size` with fewer than `max_receive_length` bytes is handled
like a successful one: nothing is raised and the receive is re-armed. -/
theorem SourceModule.HandleReceive_socket_error (registered : List String)
    (parse : String → Option String) (max_receive_length length : Nat)
    (name : Except String String) (what : String) :
    SourceModule.HandleReceive registered parse max_receive_length (.other what) length name
      = { logged := ["Error receiving from socket: \"" ++ what ++ "\""], delivered := []
          raised := some ("Error receiving from socket: \"" ++ what ++ "\"")
          rearmed := false } ∧
    SourceModule.HandleReceive registered parse max_receive_length .message_size length name
      = SourceModule.HandleReceive registered parse max_receive_length .success length name ∧
    (length < max_receive_length ↔
      ((SourceModule.HandleReceive registered parse max_receive_length .message_size length
          name).raised = none ∧
        (SourceModule.HandleReceive registered parse max_receive_length .message_size length
          name).rearmed = true)) := by
  refine ⟨rfl, rfl, ?_⟩
  by_cases h : length ≥ max_receive_length
  · have h2 : ¬ (length < max_receive_length) := by omega
    simp only [SourceModule.HandleReceive, if_pos h]
    simp [h2]
  · have h2 : length < max_receive_length := by omega
    simp only [SourceModule.HandleReceive, if_neg h]
    cases name with
    | error e => simp [h2]
    | ok key =>
      by_cases hk : registered.contains key = true
      · simp only [hk, if_true]
        cases parse key <;> simp [h2]
      · simp only [hk]
        simp [h2]

/-! ### Sampler and TestSource -/

/-- C16: `stop()` is safe to call multiple times on `Sampler` and `TestSource`: in every state
reached by any sequence of `start()`/`stop()` calls from construction, `stop()` followed by
`stop()` leaves the same state as a single `stop()` (in particular the second call joins no
thread), and `stop()` on a never-started component changes nothing. -/
theorem Sampler.stop_idempotent (calls : List LifecycleCall) ( frequencyNonZero : Bool) :
    (Sampler.run Sampler.init calls).stop.stop = (Sampler.run Sampler.init calls).stop ∧
    (Sampler.run Sampler.init calls).stop.stop.joined
      = (Sampler.run Sampler.init calls).stop.joined ∧
    Sampler.init.stop = Sampler.init ∧
    Sampler.init = { m_running := false, m_bStop := true, m_pThread := none, created := 0
                     joined := [] } ∧
    (TestSource.run (TestSource.init frequencyNonZero) calls).stop.stop
      = (TestSource.run (TestSource.init frequencyNonZero) calls).stop ∧
    (TestSource.run (TestSource.init frequencyNonZero) calls).stop.stop.joined
      = (TestSource.run (TestSource.init frequencyNonZero) calls).stop.joined ∧
    (TestSource.init frequencyNonZero).stop = TestSource.init frequencyNonZero ∧
    TestSource.init frequencyNonZero
      = { m_running := false, m_bStop := true, m_pThread := none
          frequencyNonZero := frequencyNonZero, created := 0, joined := [] } := by
  have hS : ∀ s : Sampler, s.stop.stop = s.stop := by
    intro s
    rcases s with ⟨r, b, th, c, j⟩
    cases r <;> cases th <;> rfl
  have hT : ∀ s : TestSource, s.stop.stop = s.stop := by
    intro s
    rcases s with ⟨r, b, th, f, c, j⟩
    cases r <;> cases th <;> rfl
  refine ⟨hS _, by rw [hS], rfl, rfl, hT _, by rw [hT], rfl, rfl⟩

/-! ### Player -/

/-- The loop that chooses `recordStart` returns a non-zero first time of some component (or
the start value), below every non-zero first time and below a non-zero start value. -/
theorem PlayerModule.findRecordStart_spec {α : Type} (l : List (PlayerComponent α))
    (rs : Int) :
    (PlayerModule.findRecordStart rs l = rs ∨
      ∃ c ∈ l, c.getFirstTime ≠ 0 ∧ c.getFirstTime = PlayerModule.findRecordStart rs l) ∧
    (∀ c ∈ l, c.getFirstTime ≠ 0 →
      PlayerModule.findRecordStart rs l ≠ 0 ∧
        PlayerModule.findRecordStart rs l ≤ c.getFirstTime) ∧
    (rs ≠ 0 → PlayerModule.findRecordStart rs l ≠ 0 ∧ PlayerModule.findRecordStart rs l ≤ rs) := by
  induction l generalizing rs with
  | nil => simp [PlayerModule.findRecordStart]
  | cons c rest ih =>
    by_cases h : c.getFirstTime ≠ 0 ∧ (rs = 0 ∨ c.getFirstTime < rs)
    · have hstep : PlayerModule.findRecordStart rs (c :: rest)
          = PlayerModule.findRecordStart c.getFirstTime rest := by
        simp only [PlayerModule.findRecordStart, if_pos h]
      rw [hstep]
      obtain ⟨h1, h2, h3⟩ := ih c.getFirstTime
      refine ⟨?_, ?_, ?_⟩
      · right
        rcases h1 with h1 | ⟨d, hd, hd0, hdeq⟩
        · exact ⟨c, by simp, h.1, h1.symm⟩
        · exact ⟨d, by simp [hd], hd0, hdeq⟩
      · intro d hd hd0
        rcases List.mem_cons.1 hd with rfl | hd2
        · exact h3 h.1
        · exact h2 d hd2 hd0
      · intro hrs
        have := h3 h.1
        refine ⟨this.1, ?_⟩
        rcases h.2 with h0 | hlt
        · exact absurd h0 hrs
        · omega
    · have hstep : PlayerModule.findRecordStart rs (c :: rest)
          = PlayerModule.findRecordStart rs rest := by
        simp only [PlayerModule.findRecordStart, if_neg h]
      rw [hstep]
      obtain ⟨h1, h2, h3⟩ := ih rs
      refine ⟨?_, ?_, h3⟩
      · rcases h1 with h1 | ⟨d, hd, hd0, hdeq⟩
        · exact Or.inl h1
        · exact Or.inr ⟨d, by simp [hd], hd0, hdeq⟩
      · intro d hd hd0
        rcases List.mem_cons.1 hd with rfl | hd2
        · have hrs : rs ≠ 0 ∧ ¬ (d.getFirstTime < rs) := by
            constructor
            · intro h0
              exact h ⟨hd0, Or.inl h0⟩
            · intro hlt
              exact h ⟨hd0, Or.inr hlt⟩
          have := h3 hrs.1
          exact ⟨this.1, by omega⟩
        · exact h2 d hd2 hd0

/-- C17, as stated, fails in exact arithmetic in two ways.  A component whose first event time
plus offset is 0 (first event at 5000000 ns, offset -5 ms) has an event but is skipped as if it
had none, so `recordStart` is 7000000 and not the minimum 0.  And an event stored after the
first one with a smaller timestamp (10, then 5) is rebased to 95, before `playbackStart`
= 100. -/
theorem PlayerModule.recordStart_skips_zero_and_unsorted :
    (PlayerModule.recordStart
        [({ m_offset := -5, m_speedup := 1, m_events := [{ time := 5000000, payload := 0 }]
            m_iterator := 0 } : PlayerComponent Nat),
         { m_offset := 0, m_speedup := 1, m_events := [{ time := 7000000, payload := 0 }]
           m_iterator := 0 }] = 7000000 ∧
      PlayerComponent.getFirstTime
        ({ m_offset := -5, m_speedup := 1, m_events := [{ time := 5000000, payload := 0 }]
           m_iterator := 0 } : PlayerComponent Nat) = 0) ∧
    (PlayerModule.recordStart
        [({ m_offset := 0, m_speedup := 1
            m_events := [{ time := 10, payload := 0 }, { time := 5, payload := 1 }]
            m_iterator := 0 } : PlayerComponent Nat)] = 10 ∧
      PlayerComponent.recordTimeToReal
        ({ m_offset := 0, m_speedup := 1
           m_events := [{ time := 10, payload := 0 }, { time := 5, payload := 1 }]
           m_iterator := 0 } : PlayerComponent Nat) 5 10 100 = 95) := by
  refine ⟨⟨by decide, by decide⟩, by decide, ?_⟩
  simp [PlayerComponent.recordTimeToReal]
  norm_num

/-- C17 (amended): in exact arithmetic, for player components of which one has a non-zero first
time (first event time + offset*10^6; the value 0 marks a component without events),
`recordStart` chosen by the main loop is the minimum of the non-zero first times; for a
component attaining it and every speedup `s > 0` the rebased playback time of its first event
equals `playbackStart`; every event `e` with `e.time + offset*10^6 >= recordStart` has a
playback time `>= playbackStart`, in particular every event of a component with a non-zero
first time whose events are stored in non-decreasing time order. -/
theorem PlayerModule.playback_starts_at_recordStart {α : Type} (l : List (PlayerComponent α))
    (playbackStart : Int) (c : PlayerComponent α) (hc : c ∈ l) (hfirst : c.getFirstTime ≠ 0)
    (hs : 0 < c.m_speedup) :
    PlayerModule.recordStart l ≠ 0 ∧
    (∃ d ∈ l, d.getFirstTime = PlayerModule.recordStart l) ∧
    (∀ d ∈ l, d.getFirstTime ≠ 0 → PlayerModule.recordStart l ≤ d.getFirstTime) ∧
    (c.getFirstTime = PlayerModule.recordStart l → ∀ e, c.m_events.head? = some e →
      c.recordTimeToReal e.time (PlayerModule.recordStart l) playbackStart = playbackStart) ∧
    (∀ e ∈ c.m_events, PlayerModule.recordStart l ≤ (e.time : Int) + 1000000 * c.m_offset →
      playbackStart ≤ c.recordTimeToReal e.time (PlayerModule.recordStart l) playbackStart) ∧
    (c.m_events.Pairwise (fun a b => a.time ≤ b.time) → ∀ e ∈ c.m_events,
      playbackStart ≤ c.recordTimeToReal e.time (PlayerModule.recordStart l) playbackStart) := by
  obtain ⟨h1, h2, -⟩ := PlayerModule.findRecordStart_spec l 0
  have hmin := h2 c hc hfirst
  have hge : ∀ e ∈ c.m_events,
      PlayerModule.recordStart l ≤ (e.time : Int) + 1000000 * c.m_offset →
      playbackStart ≤ c.recordTimeToReal e.time (PlayerModule.recordStart l) playbackStart := by
    intro e _ hle
    unfold PlayerComponent.recordTimeToReal
    rw [Int.le_floor]
    have hx : (0 : ℚ) ≤ (((e.time : Int) - PlayerModule.recordStart l
        + c.m_offset * 1000000 : Int) : ℚ) := by
      exact_mod_cast (by omega : (0 : Int) ≤ (e.time : Int) - PlayerModule.recordStart l
        + c.m_offset * 1000000)
    have := div_nonneg hx (le_of_lt hs)
    linarith
  refine ⟨hmin.1, ?_, ?_, ?_, hge, ?_⟩
  · rcases h1 with h0 | ⟨d, hd, -, hdeq⟩
    · exact absurd h0 hmin.1
    · exact ⟨d, hd, hdeq⟩
  · intro d hd hd0
    exact (h2 d hd hd0).2
  · intro heq e he
    have hft : c.getFirstTime = (e.time : Int) + 1000000 * c.m_offset := by
      unfold PlayerComponent.getFirstTime
      cases hev : c.m_events with
      | nil => rw [hev] at he; simp at he
      | cons e0 rest =>
        rw [hev] at he
        simp only [List.head?_cons, Option.some.injEq] at he
        rw [he]
    unfold PlayerComponent.recordTimeToReal
    have hz : (e.time : Int) - PlayerModule.recordStart l + c.m_offset * 1000000 = 0 := by
      rw [← heq, hft]; ring
    rw [hz]
    simp
  · intro hsorted e he
    apply hge e he
    have hle : PlayerModule.recordStart l ≤ c.getFirstTime := hmin.2
    cases hev : c.m_events with
    | nil => rw [hev] at he; simp at he
    | cons e0 rest =>
      have hft : c.getFirstTime = (e0.time : Int) + 1000000 * c.m_offset := by
        unfold PlayerComponent.getFirstTime
        rw [hev]
      rw [hev] at hsorted he
      have h0 : e0.time ≤ e.time := by
        rcases List.mem_cons.1 he with rfl | her
        · exact le_refl _
        · exact (List.pairwise_cons.1 hsorted).1 e her
      omega

/-- Witness for C17: two components, first events at 7000000 and 9000000 ns, speedup 2. -/
theorem PlayerModule.playback_starts_at_recordStart_witness :
    PlayerModule.recordStart
        [({ m_offset := 0, m_speedup := 2
            m_events := [{ time := 7000000, payload := 0 }, { time := 8000000, payload := 1 }]
            m_iterator := 0 } : PlayerComponent Nat),
         { m_offset := 0, m_speedup := 1, m_events := [{ time := 9000000, payload := 0 }]
           m_iterator := 0 }] ≠ 0 :=
  (PlayerModule.playback_starts_at_recordStart
    [({ m_offset := 0, m_speedup := 2
        m_events := [{ time := 7000000, payload := 0 }, { time := 8000000, payload := 1 }]
        m_iterator := 0 } : PlayerComponent Nat),
     { m_offset := 0, m_speedup := 1, m_events := [{ time := 9000000, payload := 0 }]
       m_iterator := 0 }] 100
    { m_offset := 0, m_speedup := 2
      m_events := [{ time := 7000000, payload := 0 }, { time := 8000000, payload := 1 }]
      m_iterator := 0 }
    (by simp) (by decide) (by norm_num)).1

/-! ### Accumulator -/

theorem Accumulator.accumulator_receiveAll_append {α : Type} (pre : List (Measurement α))
    (e : Measurement α) (a : Accumulator α) :
    Accumulator.receiveAll a (pre ++ [e])
      = (Accumulator.receive (Accumulator.receiveAll a pre) e).state := by
  induction pre generalizing a with
  | nil => rfl
  | cons d rest ih =>
    simp only [List.cons_append, Accumulator.receiveAll]
    exact ih _

/-- One `receive` on an accumulator whose counter is below `m_maxLength` (and so does not
wrap) appends the payload and evicts nothing. -/
theorem Accumulator.receive_below {α : Type} (L : Nat) (data : List α) (e : Measurement α)
    (hlen : data.length < L) (hL : L < 2 ^ 32) :
    Accumulator.receive { m_maxLength := L, m_size := data.length, m_data := data } e
      = { state := { m_maxLength := L, m_size := data.length + 1
                     m_data := data ++ [e.payload] }
          sent := [{ time := e.time, payload := data ++ [e.payload] }], raised := none } := by
  have hmod : (data.length + 1) % uintModulus = data.length + 1 := by
    apply Nat.mod_eq_of_lt
    simp only [uintModulus]
    omega
  have hnot : ¬ (data.length + 1 > L) := by omega
  unfold Accumulator.receive
  simp only [hmod, if_neg hnot]

/-- Up to `m_maxLength` events are all kept. -/
theorem Accumulator.receiveAll_below {α : Type} (L : Nat) (events : List (Measurement α))
    (hlen : events.length ≤ L) (hL : L < 2 ^ 32) :
    Accumulator.receiveAll (Accumulator.init (some L)) events
      = { m_maxLength := L, m_size := events.length
          m_data := events.map fun e => e.payload } := by
  induction events using List.reverseRecOn with
  | nil => rfl
  | append_singleton pre e ih =>
    have hpre : pre.length < L := by
      simp only [List.length_append, List.length_singleton] at hlen
      omega
    rw [Accumulator.accumulator_receiveAll_append, ih (by omega)]
    have h := Accumulator.receive_below L (pre.map fun e => e.payload) e
      (by simpa using hpre) hL
    simp only [List.length_map] at h
    rw [h]
    simp only [List.length_append, List.length_singleton, List.map_append, List.map_cons,
      List.map_nil]

/-- When `m_maxLength + 1` fits in an `unsigned int`, the accumulator holds the last
`min k m_maxLength` payloads after `k` events. -/
theorem Accumulator.receiveAll_fifo {α : Type} (L : Nat) (events : List (Measurement α))
    (hL : 1 ≤ L) (hfit : L + 1 < 2 ^ 32) :
    Accumulator.receiveAll (Accumulator.init (some L)) events
      = { m_maxLength := L, m_size := min events.length L
          m_data := (events.map fun e => e.payload).drop (events.length - L) } := by
  induction events using List.reverseRecOn with
  | nil => simp [Accumulator.receiveAll, Accumulator.init]
  | append_singleton pre e ih =>
    rw [Accumulator.accumulator_receiveAll_append, ih]
    have hmod : (min pre.length L + 1) % uintModulus = min pre.length L + 1 := by
      apply Nat.mod_eq_of_lt
      simp only [uintModulus]
      omega
    unfold Accumulator.receive
    simp only [hmod]
    by_cases hk : pre.length < L
    · have hnot : ¬ (min pre.length L + 1 > L) := by omega
      have h0 : pre.length - L = 0 := by omega
      have h1 : (pre ++ [e]).length - L = 0 := by
        simp only [List.length_append, List.length_singleton]; omega
      have hmin : min (pre ++ [e]).length L = min pre.length L + 1 := by
        simp only [List.length_append, List.length_singleton]; omega
      rw [if_neg hnot, h0, h1, hmin]
      simp only [List.drop_zero, List.map_append, List.map_cons, List.map_nil]
    · have hpos : min pre.length L + 1 > L := by omega
      have hmin : min (pre ++ [e]).length L = min pre.length L + 1 - 1 := by
        simp only [List.length_append, List.length_singleton]; omega
      have hdrop : (List.drop (pre.length - L) (pre.map fun e => e.payload)
            ++ [e.payload]).tail
          = List.drop ((pre ++ [e]).length - L) ((pre ++ [e]).map fun e => e.payload) := by
        have hlen : (pre ++ [e]).length - L = pre.length - L + 1 := by
          simp only [List.length_append, List.length_singleton]; omega
        rw [hlen, List.map_append, List.map_cons, List.map_nil,
          List.drop_append_of_le_length (by simp only [List.length_map]; omega),
          ← List.tail_drop, List.tail_append_of_ne_nil]
        intro hnil
        have := congrArg List.length hnil
        simp only [List.length_drop, List.length_map, List.length_nil] at this
        omega
      rw [if_pos hpos, hmin, hdrop]

/-- Every `receive` sends exactly the list it leaves in `m_data`, stamped with the time of
the event, and does not raise. -/
theorem Accumulator.receive_sends_data {α : Type} (a : Accumulator α) (e : Measurement α) :
    (a.receive e).sent = [{ time := e.time, payload := (a.receive e).state.m_data }] ∧
    (a.receive e).raised = none := by
  unfold Accumulator.receive
  dsimp only
  split <;> exact ⟨rfl, rfl⟩

/-- With `m_maxLength = 2^32 - 1`, the event after `2^32 - 1` events wraps the counter and
the list grows to `2^32` elements. -/
theorem Accumulator.receive_at_uint_max {α : Type} (events : List (Measurement α))
    (e : Measurement α) (hlen : events.length = 4294967295) :
    (Accumulator.receive
        (Accumulator.receiveAll (Accumulator.init (some 4294967295)) events) e).sent.map
          (fun m => m.payload.length)
      = [4294967295 + 1] := by
  rw [Accumulator.receiveAll_below 4294967295 events (le_of_eq hlen) (by decide)]
  have hmod : (4294967295 + 1) % uintModulus = 0 := by decide
  have hnot : ¬ (0 > 4294967295) := by decide
  unfold Accumulator.receive
  simp only [hlen, hmod, if_neg hnot, List.map_cons, List.map_nil, List.length_append,
    List.length_map, List.length_singleton]

/-- C18, as stated, fails at the top of the `unsigned int` range: with
`maxLength = 4294967295` the counter `m_size` wraps to 0 on event number 4294967296, nothing
is evicted, and the list sent has 4294967296 elements instead of `min(k, L) = 4294967295`. -/
theorem Accumulator.receive_counter_wraps :
    (Accumulator.receive
        (Accumulator.receiveAll (Accumulator.init (some 4294967295))
          (List.replicate 4294967295 ({ time := 0, payload := 0 } : Measurement Nat)))
        { time := 0, payload := 0 }).sent.map (fun m => m.payload.length)
      = [4294967295 + 1] ∧
    min (4294967295 + 1) 4294967295 = 4294967295 :=
  ⟨Accumulator.receive_at_uint_max _ _ (List.length_replicate _ _), by decide⟩

/-- C18 (amended): for every maxLength `L` with `1 <= L` and `L + 1 < 2^32` and every sequence
of `k` received events, the list sent for the `k`-th event has length `min(k, L)`, consists of
the payloads of the last `min(k, L)` events in arrival order (the oldest evicted first), and
carries the `k`-th event's timestamp. -/
theorem Accumulator.receive_sends_last {α : Type} (L : Nat) (pre : List (Measurement α))
    (e : Measurement α) (hL : 1 ≤ L) (hfit : L + 1 < 2 ^ 32) :
    (Accumulator.receive (Accumulator.receiveAll (Accumulator.init (some L)) pre) e).sent
      = [{ time := e.time
           payload := ((pre ++ [e]).map fun m => m.payload).drop ((pre ++ [e]).length - L) }] ∧
    (((pre ++ [e]).map fun m => m.payload).drop ((pre ++ [e]).length - L)).length
      = min (pre ++ [e]).length L ∧
    (Accumulator.receive (Accumulator.receiveAll (Accumulator.init (some L)) pre) e).raised
      = none := by
  have hstate := Accumulator.receiveAll_fifo L (pre ++ [e]) hL hfit
  rw [Accumulator.accumulator_receiveAll_append] at hstate
  obtain ⟨hsent, hraised⟩ := Accumulator.receive_sends_data
    (Accumulator.receiveAll (Accumulator.init (some L)) pre) e
  refine ⟨?_, ?_, hraised⟩
  · rw [hsent, hstate]
  · simp only [List.length_drop, List.length_map]
    omega

/-- Witness for C18: maxLength 2, third event. -/
theorem Accumulator.receive_sends_last_witness :
    (Accumulator.receive (Accumulator.receiveAll (Accumulator.init (some 2))
        [({ time := 1, payload := 10 } : Measurement Nat), { time := 2, payload := 20 }])
        { time := 3, payload := 30 }).sent
      = [{ time := 3, payload := [20, 30] }] :=
  (Accumulator.receive_sends_last 2
    [({ time := 1, payload := 10 } : Measurement Nat), { time := 2, payload := 20 }]
    { time := 3, payload := 30 } (by decide) (by decide)).1

/-! ### LinearInterpolation -/

theorem Gate.handle_config {α : Type} (g : Gate α) (x : GateInput α) :
    (g.handle x).state.m_type = g.m_type ∧ (g.handle x).state.m_button = g.m_button := by
  cases x with
  | data m =>
    simp only [Gate.handle, Gate.manageGate]
    split <;> exact ⟨rfl, rfl⟩
  | signal b =>
    simp only [Gate.handle, Gate.openGate]
    split_ifs <;> exact ⟨rfl, rfl⟩

theorem Gate.run_config {α : Type} (inputs : List (GateInput α)) (g : Gate α) :
    (g.run inputs).state.m_type = g.m_type ∧ (g.run inputs).state.m_button = g.m_button := by
  induction inputs generalizing g with
  | nil => exact ⟨rfl, rfl⟩
  | cons x rest ih =>
    have h1 := Gate.handle_config g x
    have h2 := ih (g.handle x).state
    simp only [Gate.run]
    exact ⟨h2.1.trans h1.1, h2.2.trans h1.2⟩

theorem Gate.run_append {α : Type} (a b : List (GateInput α)) (g : Gate α) :
    (g.run (a ++ b)).state = ((g.run a).state.run b).state ∧
    (g.run (a ++ b)).sent = (g.run a).sent ++ ((g.run a).state.run b).sent := by
  induction a generalizing g with
  | nil => exact ⟨rfl, rfl⟩
  | cons x rest ih =>
    have h := ih (g.handle x).state
    simp only [List.cons_append, Gate.run, List.append_assoc, List.append_eq, h.1, h.2]
    exact ⟨trivial, trivial⟩

theorem Gate.manageGate_forward {α : Type} (g : Gate α) (m : Measurement α)
    (h : g.m_open = true ∧ g.m_type = 1) :
    g.manageGate m
      = { state := { g with m_inCount := 1, old := some m, m_open := false }
          sent := [some m], raised := none } := by
  unfold Gate.manageGate
  rw [if_pos h]

theorem Gate.manageGate_hold {α : Type} (g : Gate α) (m : Measurement α)
    (h : ¬ (g.m_open = true ∧ g.m_type = 1)) :
    g.manageGate m
      = { state := { g with m_inCount := 1, old := some m }, sent := [], raised := none } := by
  unfold Gate.manageGate
  rw [if_neg h]

/-- A signal that does not match sends nothing and changes nothing; a matching one sends at
most one measurement and leaves the gate open only when it sends nothing. -/
theorem Gate.openGate_budget {α : Type} (g : Gate α) (b : Measurement Int) :
    (¬ (g.m_button < 0 ∨ b.payload = g.m_button) → g.openGate b
        = { state := g, sent := [], raised := none }) ∧
    ((g.m_button < 0 ∨ b.payload = g.m_button) →
      (g.openGate b).sent.length + (if (g.openGate b).state.m_open then 1 else 0)
        ≤ (if g.m_open then 1 else 0) + 1) := by
  constructor
  · intro h
    unfold Gate.openGate
    rw [if_neg h]
  · intro h
    unfold Gate.openGate
    rw [if_pos h]
    by_cases h0 : g.m_type = 0
    · by_cases hc : g.m_inCount ≠ 0
      · rw [if_pos h0, if_pos hc]
        simp only [List.length_singleton]
        split <;> omega
      · rw [if_pos h0, if_neg hc]
        simp only [List.length_nil]
        split <;> omega
    · by_cases h2 : g.m_type = 2
      · by_cases hc : g.m_inCount ≠ 0
        · rw [if_neg h0, if_pos h2, if_pos hc]
          simp only [List.length_singleton]
          split <;> omega
        · rw [if_neg h0, if_pos h2, if_neg hc]
          simp only [List.length_nil]
          split <;> omega
      · rw [if_neg h0, if_neg h2]
        simp only [List.length_nil, if_true]
        split <;> omega

/-- One arriving event sends at most one measurement, and what it sends plus the opening it
leaves is paid for by the opening it found or by being a matching signal. -/
theorem Gate.handle_budget {α : Type} (g : Gate α) (x : GateInput α) :
    (g.handle x).sent.length + (if (g.handle x).state.m_open then 1 else 0)
      ≤ (if g.m_open then 1 else 0)
        + (if Gate.isMatchingSignal g.m_button x then 1 else 0) := by
  cases x with
  | data m =>
    show (g.manageGate m).sent.length + (if (g.manageGate m).state.m_open then 1 else 0)
      ≤ (if g.m_open then 1 else 0) + (if false = true then 1 else 0)
    by_cases h : g.m_open = true ∧ g.m_type = 1
    · rw [Gate.manageGate_forward g m h]
      simp [h.1]
    · rw [Gate.manageGate_hold g m h]
      simp
  | signal b =>
    show (g.openGate b).sent.length + (if (g.openGate b).state.m_open then 1 else 0)
      ≤ (if g.m_open then 1 else 0)
        + (if decide (g.m_button < 0 ∨ b.payload = g.m_button) = true then 1 else 0)
    by_cases hm : g.m_button < 0 ∨ b.payload = g.m_button
    · have := (Gate.openGate_budget g b).2 hm
      simpa [hm] using this
    · rw [(Gate.openGate_budget g b).1 hm]
      simp [hm]

theorem Gate.run_budget {α : Type} (inputs : List (GateInput α)) (g : Gate α) :
    (g.run inputs).sent.length + (if (g.run inputs).state.m_open then 1 else 0)
      ≤ (if g.m_open then 1 else 0)
        + (inputs.filter (Gate.isMatchingSignal g.m_button)).length := by
  induction inputs generalizing g with
  | nil => simp [Gate.run]
  | cons x rest ih =>
    have h1 := Gate.handle_budget g x
    have h2 := ih (g.handle x).state
    rw [(Gate.handle_config g x).2] at h2
    simp only [Gate.run, List.length_append, List.filter_cons]
    by_cases hx : Gate.isMatchingSignal g.m_button x = true
    · simp only [hx, if_true, List.length_cons] at h1 ⊢
      omega
    · simp only [hx] at h1 ⊢
      simp only [Bool.false_eq_true, if_false] at h1 ⊢
      omega

/-- C20: for every `gateType` value, every `button` configuration and every interleaving of
input events and button signals starting from construction, the number of events sent on
`Output` never exceeds the number of received signals that match the configured button (any
signal when the configured button id is negative). -/
theorem Gate.sent_le_matching_signals {α : Type} (gateType : Option Int)
    (button : Option (List Int)) (inputs : List (GateInput α)) :
    ((Gate.init gateType button : Gate α).run inputs).sent.length
      ≤ (inputs.filter
          (Gate.isMatchingSignal (Gate.init gateType button : Gate α).m_button)).length := by
  have h := Gate.run_budget inputs (Gate.init gateType button : Gate α)
  have h0 : (Gate.init gateType button : Gate α).m_open = false := rfl
  rw [h0] at h
  simp only [Bool.false_eq_true, if_false, Nat.zero_add] at h
  omega

theorem Gate.openGate_next_event {α : Type} (g : Gate α) (b : Measurement Int)
    (h1 : g.m_type = 1) (hm : g.m_button < 0 ∨ b.payload = g.m_button) :
    g.openGate b = { state := { g with m_open := true }, sent := [], raised := none } := by
  have h0 : ¬ (g.m_type = 0) := by omega
  have h2 : ¬ (g.m_type = 2) := by omega
  unfold Gate.openGate
  rw [if_pos hm, if_neg h0, if_neg h2]

/-- With `gateType` 1, while nothing is sent the gate is open exactly when it was open before
or a matching signal has arrived. -/
theorem Gate.run_open_of_silent {α : Type} (b : List (GateInput α)) (g : Gate α)
    (h1 : g.m_type = 1) (hsilent : (g.run b).sent = []) :
    (g.run b).state.m_open = (g.m_open || b.any (Gate.isMatchingSignal g.m_button)) := by
  induction b generalizing g with
  | nil => simp [Gate.run]
  | cons x rest ih =>
    simp only [Gate.run, List.append_eq_nil] at hsilent
    obtain ⟨hx, hrest⟩ := hsilent
    have hcfg := Gate.handle_config g x
    have hih := ih (g.handle x).state (hcfg.1.trans h1) hrest
    simp only [Gate.run, List.any_cons]
    rw [hih, hcfg.2]
    cases x with
    | data m =>
      have hclosed : ¬ (g.m_open = true ∧ g.m_type = 1) := by
        intro h
        have hs : (g.handle (GateInput.data m)).sent = [some m] := by
          show (g.manageGate m).sent = [some m]
          rw [Gate.manageGate_forward g m h]
        rw [hs] at hx
        cases hx
      have hst : (g.handle (GateInput.data m)).state.m_open = g.m_open := by
        show (g.manageGate m).state.m_open = g.m_open
        rw [Gate.manageGate_hold g m hclosed]
      rw [hst]
      simp [Gate.isMatchingSignal]
    | signal s =>
      by_cases hm : g.m_button < 0 ∨ s.payload = g.m_button
      · have hst : (g.handle (GateInput.signal s)).state.m_open = true := by
          show (g.openGate s).state.m_open = true
          rw [Gate.openGate_next_event g s h1 hm]
        rw [hst]
        simp [Gate.isMatchingSignal, hm]
      · have hst : (g.handle (GateInput.signal s)).state.m_open = g.m_open := by
          show (g.openGate s).state.m_open = g.m_open
          rw [(Gate.openGate_budget g s).1 hm]
        rw [hst]
        simp [Gate.isMatchingSignal, hm]

/-- C21: with `gateType` 1, let `a` be the events up to and including the last forwarded input
event (or nothing, right after construction) and `b` the events after it, during which nothing
is forwarded.  The next input event `d` is forwarded, unmodified, if and only if `b` contains a
matching signal; otherwise nothing is sent.  Either way the gate is closed afterwards, so
several signals before one event let only that one event pass. -/
theorem Gate.next_event_forwarded_iff {α : Type} (button : Option (List Int))
    (a b : List (GateInput α)) (d : Measurement α)
    (hlast : a = [] ∨ ∃ a0 d0, a = a0 ++ [GateInput.data d0] ∧
      (((Gate.init (some 1) button : Gate α).run a0).state.manageGate d0).sent ≠ [])
    (hsilent : (((Gate.init (some 1) button : Gate α).run a).state.run b).sent = []) :
    ((((Gate.init (some 1) button : Gate α).run (a ++ b)).state.manageGate d).sent = [some d] ↔
      ∃ x ∈ b, Gate.isMatchingSignal (Gate.init (some 1) button : Gate α).m_button x = true) ∧
    ((((Gate.init (some 1) button : Gate α).run (a ++ b)).state.manageGate d).sent = [] ↔
      ¬ ∃ x ∈ b, Gate.isMatchingSignal (Gate.init (some 1) button : Gate α).m_button x = true) ∧
    (((Gate.init (some 1) button : Gate α).run (a ++ b)).state.manageGate d).state.m_open
      = false := by
  have hcfgA := Gate.run_config a (Gate.init (some 1) button : Gate α)
  have htypeA : ((Gate.init (some 1) button : Gate α).run a).state.m_type = 1 := hcfgA.1
  have hclosedA : ((Gate.init (some 1) button : Gate α).run a).state.m_open = false := by
    rcases hlast with rfl | ⟨a0, d0, rfl, hsent⟩
    · rfl
    · rw [(Gate.run_append a0 [GateInput.data d0] _).1]
      show (((Gate.init (some 1) button : Gate α).run a0).state.manageGate d0).state.m_open = false
      by_cases h : ((Gate.init (some 1) button : Gate α).run a0).state.m_open = true ∧
          ((Gate.init (some 1) button : Gate α).run a0).state.m_type = 1
      · rw [Gate.manageGate_forward _ d0 h]
      · rw [Gate.manageGate_hold _ d0 h] at hsent
        exact absurd rfl hsent
  have hopen := Gate.run_open_of_silent b _ htypeA hsilent
  rw [hclosedA, hcfgA.2, Bool.false_or] at hopen
  have hcfgB := Gate.run_config b ((Gate.init (some 1) button : Gate α).run a).state
  have htype : ((Gate.init (some 1) button : Gate α).run (a ++ b)).state.m_type = 1 := by
    rw [(Gate.run_append a b _).1]; exact hcfgB.1.trans htypeA
  have hopen2 : ((Gate.init (some 1) button : Gate α).run (a ++ b)).state.m_open
      = b.any (Gate.isMatchingSignal (Gate.init (some 1) button : Gate α).m_button) := by
    rw [(Gate.run_append a b _).1]; exact hopen
  have hany : b.any (Gate.isMatchingSignal (Gate.init (some 1) button : Gate α).m_button) = true ↔
      ∃ x ∈ b, Gate.isMatchingSignal (Gate.init (some 1) button : Gate α).m_button x = true :=
    List.any_eq_true
  by_cases h : ((Gate.init (some 1) button : Gate α).run (a ++ b)).state.m_open = true ∧
      ((Gate.init (some 1) button : Gate α).run (a ++ b)).state.m_type = 1
  · have hex : ∃ x ∈ b,
        Gate.isMatchingSignal (Gate.init (some 1) button : Gate α).m_button x = true := by
      rw [← hany, ← hopen2]; exact h.1
    rw [Gate.manageGate_forward _ d h]
    exact ⟨⟨fun _ => hex, fun _ => rfl⟩, ⟨fun hnil => (by cases hnil), fun hn => absurd hex hn⟩, rfl⟩
  · have hnex : ¬ ∃ x ∈ b,
        Gate.isMatchingSignal (Gate.init (some 1) button : Gate α).m_button x = true := by
      rw [← hany, ← hopen2]
      intro ho
      exact h ⟨ho, htype⟩
    have hclosed : ((Gate.init (some 1) button : Gate α).run (a ++ b)).state.m_open = false := by
      cases hval : ((Gate.init (some 1) button : Gate α).run (a ++ b)).state.m_open with
      | false => rfl
      | true => exact absurd ⟨hval, htype⟩ h
    rw [Gate.manageGate_hold _ d h]
    exact ⟨⟨fun hs => (by cases hs), fun hex => absurd hex hnex⟩, ⟨fun _ => hnex, fun _ => rfl⟩,
      hclosed⟩

/-- Witness for C21: default button (space, id 32); a forwarded event, then two matching
signals, then the next event. -/
theorem Gate.next_event_forwarded_iff_witness :
    (((Gate.init (some 1) none : Gate Nat).run
        ([GateInput.signal { time := 1, payload := 32 }, GateInput.data { time := 2, payload := 5 }]
          ++ [GateInput.signal { time := 3, payload := 32 },
              GateInput.signal { time := 4, payload := 32 }])).state.manageGate
        { time := 5, payload := 6 }).state.m_open = false :=
  (Gate.next_event_forwarded_iff none
    [GateInput.signal { time := 1, payload := 32 }, GateInput.data { time := 2, payload := 5 }]
    [GateInput.signal { time := 3, payload := 32 }, GateInput.signal { time := 4, payload := 32 }]
    { time := 5, payload := 6 }
    (Or.inr ⟨[GateInput.signal { time := 1, payload := 32 }], { time := 2, payload := 5 },
      rfl, by decide⟩)
    (by decide)).2.2

/-! ### TriggerLoop -/

/-- While the counter stays below `m_size`, every `IterationDone` event triggers the next
iteration. -/
theorem TriggerLoop.iterate_below (dones : List (Measurement Int × Nat)) (s : TriggerLoop)
    (hc : 0 ≤ s.m_counter) (hlt : s.m_counter + dones.length < s.m_size)
    (hrange : s.m_size < 2 ^ 31) :
    TriggerLoop.iterate s dones
      = some ({ s with m_counter := s.m_counter + dones.length },
          dones.map fun p =>
            TriggerLoopOutput.iterationTrigger { time := p.2, payload := s.m_button }) := by
  induction dones generalizing s with
  | nil => simp [TriggerLoop.iterate]
  | cons d rest ih =>
    obtain ⟨e, now⟩ := d
    simp only [List.length_cons, Nat.cast_add, Nat.cast_one] at hlt
    have h1 : ¬ (s.m_counter + 1 ≥ 2 ^ 31) := by omega
    have h2 : ¬ (s.m_size > 0 ∧ s.m_counter + 1 = s.m_size) := by omega
    have hstep : s.iterationDone e now
        = some { state := { s with m_counter := s.m_counter + 1 }
                 sent := [.iterationTrigger { time := now, payload := s.m_button }]
                 raised := none } := by
      unfold TriggerLoop.iterationDone
      rw [if_neg h1, if_neg h2]
    have hih := ih { s with m_counter := s.m_counter + 1 } (by show 0 ≤ s.m_counter + 1; omega)
      (by show s.m_counter + 1 + (rest.length : Int) < s.m_size; omega) hrange
    simp only [TriggerLoop.iterate, hstep, hih, List.map_cons, List.length_cons, Nat.cast_add,
      Nat.cast_one, List.singleton_append]
    congr 3
    ring

theorem TriggerLoop.iterate_append (l1 l2 : List (Measurement Int × Nat))
    (s0 s1 : TriggerLoop) (o1 : List TriggerLoopOutput)
    (h : TriggerLoop.iterate s0 l1 = some (s1, o1)) :
    TriggerLoop.iterate s0 (l1 ++ l2)
      = (TriggerLoop.iterate s1 l2).map fun r => (r.1, o1 ++ r.2) := by
  induction l1 generalizing s0 s1 o1 with
  | nil =>
    simp only [TriggerLoop.iterate, Option.some.injEq, Prod.mk.injEq] at h
    obtain ⟨rfl, rfl⟩ := h
    simp
  | cons d rest ih =>
    obtain ⟨e1, n1⟩ := d
    rw [TriggerLoop.iterate] at h
    conv_lhs => rw [List.cons_append, TriggerLoop.iterate]
    cases hstep : s0.iterationDone e1 n1 with
    | none => rw [hstep] at h; cases h
    | some st =>
      rw [hstep] at h
      dsimp only at h ⊢
      cases hr : TriggerLoop.iterate st.state rest with
      | none => rw [hr] at h; cases h
      | some r =>
        obtain ⟨s2, o2⟩ := r
        rw [hr] at h
        simp only [Option.some.injEq, Prod.mk.injEq] at h
        obtain ⟨rfl, rfl⟩ := h
        rw [ih st.state s2 o2 hr]
        cases TriggerLoop.iterate s2 l2 with
        | none => rfl
        | some r2 => simp

/-- C22: with size `N > 0` (an `int`, so `N < 2^31`), starting from a stopped state, one
matching event `e` on the external trigger followed by `N` events on `IterationDone` is
defined and sends exactly `N` events on `IterationTrigger` (one for the trigger, stamped
`e.time`, and one after each of the first `N - 1` `IterationDone` events), then exactly one
event on `LoopDone`, on the `N`-th `IterationDone` and carrying its timestamp; the component
is stopped again afterwards. -/
theorem TriggerLoop.loop_runs_N_iterations (s : TriggerLoop) (e : Measurement Int)
    (pre : List (Measurement Int × Nat)) (last : Measurement Int) (now : Nat)
    (hstopped : s.m_bStopped = true) (hmatch : e.payload = s.m_inButton)
    (hN : 0 < s.m_size) (hrange : s.m_size < 2 ^ 31)
    (hlen : ((pre ++ [(last, now)]).length : Int) = s.m_size) :
    (s.externalTrigger e).sent
      = [.iterationTrigger { time := e.time, payload := s.m_button }] ∧
    ∃ final out, TriggerLoop.iterate (s.externalTrigger e).state (pre ++ [(last, now)])
        = some (final, out) ∧
      out = (pre.map fun p =>
              TriggerLoopOutput.iterationTrigger { time := p.2, payload := s.m_button })
            ++ [.loopDone { time := last.time, payload := s.m_button }] ∧
      final.m_bStopped = true ∧
      (((s.externalTrigger e).sent ++ out).filter fun o =>
          match o with
          | .iterationTrigger _ => true
          | .loopDone _ => false).length = pre.length + 1 ∧
      (((s.externalTrigger e).sent ++ out).filter fun o =>
          match o with
          | .iterationTrigger _ => false
          | .loopDone _ => true) = [.loopDone { time := last.time, payload := s.m_button }] := by
  have htrig : s.externalTrigger e
      = { state := { s with m_bStopped := false, m_counter := 0 }
          sent := [.iterationTrigger { time := e.time, payload := s.m_button }]
          raised := none } := by
    unfold TriggerLoop.externalTrigger
    rw [if_pos hmatch, if_pos hstopped]
  simp only [List.length_append, List.length_singleton, Nat.cast_add, Nat.cast_one] at hlen
  have hpre := TriggerLoop.iterate_below pre { s with m_bStopped := false, m_counter := 0 }
    (le_refl _) (by show (0 : Int) + (pre.length : Int) < s.m_size; omega) hrange
  dsimp only at hpre
  have h1 : ¬ ((0 : Int) + (pre.length : Int) + 1 ≥ 2 ^ 31) := by omega
  have h2 : s.m_size > 0 ∧ (0 : Int) + (pre.length : Int) + 1 = s.m_size := ⟨hN, by omega⟩
  have hlaststep : TriggerLoop.iterationDone
      { s with m_bStopped := false, m_counter := (0 : Int) + (pre.length : Int) } last now
      = some { state := { s with m_counter := (0 : Int) + (pre.length : Int) + 1
                                 m_bStopped := true }
               sent := [.loopDone { time := last.time, payload := s.m_button }]
               raised := none } := by
    unfold TriggerLoop.iterationDone
    rw [if_neg h1, if_pos h2]
  have hall := TriggerLoop.iterate_append pre [(last, now)] _ _ _ hpre
  simp only [TriggerLoop.iterate, hlaststep, Option.map_some', List.append_nil] at hall
  refine ⟨by rw [htrig], ?_⟩
  rw [htrig]
  refine ⟨_, _, hall, rfl, rfl, ?_, ?_⟩
  · simp [List.filter_append, List.filter_map, Function.comp_def]
  · simp [List.filter_append, List.filter_map, Function.comp_def]

/-- Witness for C22: size 2, default buttons. -/
theorem TriggerLoop.loop_runs_N_iterations_witness :
    ((TriggerLoop.init (some 2) none none).externalTrigger { time := 10, payload := 32 }).sent
      = [.iterationTrigger { time := 10, payload := 32 }] :=
  (TriggerLoop.loop_runs_N_iterations (TriggerLoop.init (some 2) none none)
    { time := 10, payload := 32 } [({ time := 11, payload := 32 }, 12)]
    { time := 13, payload := 32 } 14 rfl rfl (by decide) (by decide) (by decide)).1

/-- C23, as stated, fails: while the loop is running (after a trigger and one `IterationDone`
event with size 3) a further matching external trigger is ignored: nothing is sent and the
counter keeps its value 1. -/
theorem TriggerLoop.externalTrigger_ignored_while_running :
    (TriggerLoop.iterate
        ((TriggerLoop.init (some 3) none none).externalTrigger { time := 10, payload := 32 }).state
        [({ time := 11, payload := 32 }, 12)]).map
      (fun r => ((r.1.externalTrigger { time := 13, payload := 32 }).sent,
        (r.1.externalTrigger { time := 13, payload := 32 }).state.m_counter,
        r.1.m_bStopped))
      = some ([], 1, false) := by
  decide

/-- C23 (amended): for every stopped state of the component and every matching external
trigger event `e`, `externalTrigger( e )` resets the iteration counter to 0, marks the
component as running and sends one `IterationTrigger` event stamped `e.time`; while the
component is running a matching trigger is ignored: nothing is sent and the state is
unchanged. -/
theorem TriggerLoop.externalTrigger_spec (s : TriggerLoop) (e : Measurement Int)
    (hmatch : e.payload = s.m_inButton) :
    s.externalTrigger e
      = if s.m_bStopped then
          { state := { s with m_bStopped := false, m_counter := 0 }
            sent := [.iterationTrigger { time := e.time, payload := s.m_button }]
            raised := none }
        else { state := s, sent := [], raised := none } := by
  unfold TriggerLoop.externalTrigger
  rw [if_pos hmatch]

/-- Witness for C23: a trigger on the freshly constructed (stopped) component. -/
theorem TriggerLoop.externalTrigger_spec_witness :
    (TriggerLoop.init (some 3) none none).externalTrigger { time := 10, payload := 32 }
      = { state := { TriggerLoop.init (some 3) none none with m_bStopped := false, m_counter := 0 }
          sent := [.iterationTrigger { time := 10, payload := 32 }], raised := none } :=
  TriggerLoop.externalTrigger_spec (TriggerLoop.init (some 3) none none)
    { time := 10, payload := 32 } rfl

/-! ### ListGate -/

/-- On a list of at most `2^32` elements, a matching button event with the counter in range
pushes the element at the counter and advances the counter cyclically. -/
theorem ListGate.openGate_step {α : Type} (g : ListGate) (list : List α) (b : Measurement Int)
    (hmax : list.length ≤ uintModulus) (hc : g.m_inCount < list.length)
    (hm : g.m_event < 0 ∨ b.payload = g.m_event) :
    g.openGate list b
      = { state := { g with m_inCount := (g.m_inCount + 1) % list.length }
          sent := [{ time := b.time, payload := list[g.m_inCount] }], raised := none } := by
  have hcount : (if (g.m_inCount + 1) % uintModulus = list.length then 0
      else (g.m_inCount + 1) % uintModulus) = (g.m_inCount + 1) % list.length := by
    simp only [uintModulus] at hmax ⊢
    by_cases hlast : g.m_inCount + 1 = list.length
    · have h0 : (g.m_inCount + 1) % list.length = 0 := by rw [hlast, Nat.mod_self]
      rw [h0]
      split <;> omega
    · have h1 : (g.m_inCount + 1) % list.length = g.m_inCount + 1 :=
        Nat.mod_eq_of_lt (by omega)
      rw [h1]
      split <;> omega
  unfold ListGate.openGate
  rw [if_pos hm, List.getElem?_eq_getElem hc]
  dsimp only
  rw [hcount]

theorem ListGate.openGate_no_match {α : Type} (g : ListGate) (list : List α)
    (b : Measurement Int) (hm : ¬ (g.m_event < 0 ∨ b.payload = g.m_event)) :
    g.openGate list b = { state := g, sent := [], raised := none } := by
  unfold ListGate.openGate
  rw [if_neg hm]

/-- On a list of at most `2^32` elements the counter after a sequence of button events is the
number of matching events, counted cyclically from the counter before. -/
theorem ListGate.run_inCount {α : Type} (list : List α) (signals : List (Measurement Int))
    (g : ListGate) (hmax : list.length ≤ uintModulus) (hc : g.m_inCount < list.length) :
    (g.run list signals).m_event = g.m_event ∧
    (g.run list signals).m_inCount
      = (g.m_inCount + (signals.filter (ListGate.isMatchingSignal g.m_event)).length)
          % list.length := by
  induction signals generalizing g with
  | nil =>
    refine ⟨rfl, ?_⟩
    show g.m_inCount = (g.m_inCount + 0) % list.length
    rw [Nat.add_zero, Nat.mod_eq_of_lt hc]
  | cons b rest ih =>
    by_cases hm : g.m_event < 0 ∨ b.payload = g.m_event
    · have hb : ListGate.isMatchingSignal g.m_event b = true := decide_eq_true hm
      have hpos : 0 < list.length := by omega
      have hih := ih { g with m_inCount := (g.m_inCount + 1) % list.length }
        (Nat.mod_lt _ hpos)
      dsimp only at hih
      show ((g.openGate list b).state.run list rest).m_event = g.m_event ∧
        ((g.openGate list b).state.run list rest).m_inCount = _
      rw [ListGate.openGate_step g list b hmax hc hm]
      refine ⟨hih.1, ?_⟩
      rw [hih.2, List.filter_cons, if_pos hb, List.length_cons, Nat.mod_add_mod]
      congr 1
      omega
    · have hb : ¬ (ListGate.isMatchingSignal g.m_event b = true) := by
        intro h
        exact hm (of_decide_eq_true h)
      have hih := ih g hc
      show ((g.openGate list b).state.run list rest).m_event = g.m_event ∧
        ((g.openGate list b).state.run list rest).m_inCount = _
      rw [ListGate.openGate_no_match g list b hm, List.filter_cons, if_neg hb]
      exact hih

/-- On a list of more than `2^32` elements every matching button event advances the counter
modulo `2^32`. -/
theorem ListGate.openGate_long_list {α : Type} (g : ListGate) (list : List α)
    (b : Measurement Int) (hlen : uintModulus < list.length) (hc : g.m_inCount < uintModulus)
    (hm : g.m_event < 0 ∨ b.payload = g.m_event) :
    (g.openGate list b).state = { g with m_inCount := (g.m_inCount + 1) % uintModulus } := by
  have hc2 : g.m_inCount < list.length := by omega
  have hcount : (if (g.m_inCount + 1) % uintModulus = list.length then 0
      else (g.m_inCount + 1) % uintModulus) = (g.m_inCount + 1) % uintModulus := by
    simp only [uintModulus] at hlen ⊢
    split <;> omega
  unfold ListGate.openGate
  rw [if_pos hm, List.getElem?_eq_getElem hc2]
  dsimp only
  rw [hcount]

theorem ListGate.run_long_list {α : Type} (list : List α) (signals : List (Measurement Int))
    (g : ListGate) (hlen : uintModulus < list.length) (hc : g.m_inCount < uintModulus)
    (hall : ∀ b ∈ signals, g.m_event < 0 ∨ b.payload = g.m_event) :
    (g.run list signals).m_event = g.m_event ∧
    (g.run list signals).m_inCount = (g.m_inCount + signals.length) % uintModulus := by
  induction signals generalizing g with
  | nil =>
    refine ⟨rfl, ?_⟩
    show g.m_inCount = (g.m_inCount + 0) % uintModulus
    rw [Nat.add_zero, Nat.mod_eq_of_lt hc]
  | cons b rest ih =>
    have hm := hall b (List.mem_cons_self b rest)
    have hpos : 0 < uintModulus := by omega
    have hih := ih { g with m_inCount := (g.m_inCount + 1) % uintModulus }
      (Nat.mod_lt _ hpos) (fun x hx => hall x (List.mem_cons_of_mem b hx))
    dsimp only at hih
    show ((g.openGate list b).state.run list rest).m_event = g.m_event ∧
      ((g.openGate list b).state.run list rest).m_inCount = _
    rw [ListGate.openGate_long_list g list b hlen hc hm]
    refine ⟨hih.1, ?_⟩
    rw [hih.2, List.length_cons, Nat.mod_add_mod]
    congr 1
    omega

theorem ListGate.openGate_sent {α : Type} (g : ListGate) (list : List α) (b : Measurement Int)
    (x : α) (hm : g.m_event < 0 ∨ b.payload = g.m_event) (hx : list[g.m_inCount]? = some x) :
    (g.openGate list b).sent = [{ time := b.time, payload := x }] := by
  unfold ListGate.openGate
  rw [if_pos hm, hx]

/-- C24, as stated, fails for a list of more than `2^32` elements: with the list
`0, 1, …, 4294967296` (`n = 2^32 + 1`) and the default event, the 4294967297-th matching
button event pushes the element at index 0, while the element at index
`(4294967297 - 1) mod n` is `4294967296`. -/
theorem ListGate.openGate_counter_wraps :
    (((ListGate.init none).run (List.range 4294967297)
        (List.replicate 4294967296 { time := 0, payload := 32 })).openGate
        (List.range 4294967297) { time := 7, payload := 32 }).sent
      = [{ time := 7, payload := 0 }] ∧
    (List.range 4294967297)[(4294967297 - 1) % 4294967297]? = some 4294967296 := by
  have hrun := ListGate.run_long_list (List.range 4294967297)
    (List.replicate 4294967296 { time := 0, payload := 32 }) (ListGate.init none)
    (by rw [List.length_range]; decide) (by decide)
    (fun b hb => by rw [List.eq_of_mem_replicate hb]; decide)
  rw [List.length_replicate] at hrun
  have hmod : ((ListGate.init none).m_inCount + 4294967296) % uintModulus = 0 := by decide
  rw [hmod] at hrun
  have hidx : (4294967297 - 1) % 4294967297 = 4294967296 := by decide
  refine ⟨?_, ?_⟩
  · apply ListGate.openGate_sent
    · rw [hrun.1]; decide
    · rw [hrun.2]
      exact List.getElem?_range (by decide)
  · rw [hidx]
    exact List.getElem?_range (by decide)

/-- C24 (amended): for every fixed list of `n` elements with `1 ≤ n ≤ 2^32` supplied by the
`Coordinates` input and every sequence `pre` of button events since construction, a matching
button event `b` (the `k`-th one, `k - 1` being the number of matching events in `pre`)
pushes exactly the element at index `(k - 1) mod n` stamped `b.time` and raises nothing, and
the counter `m_inCount` is strictly below `n` before and after it. -/
theorem ListGate.openGate_pushes_next_element {α : Type} (event : Option (List Int))
    (list : List α) (pre : List (Measurement Int)) (b : Measurement Int)
    (hn : 1 ≤ list.length) (hmax : list.length ≤ uintModulus)
    (hm : ListGate.isMatchingSignal (ListGate.init event).m_event b = true) :
    ((ListGate.init event).run list pre).m_inCount < list.length ∧
    (((ListGate.init event).run list pre).openGate list b).state.m_inCount < list.length ∧
    (((ListGate.init event).run list pre).openGate list b).raised = none ∧
    ∃ x, list[(pre.filter (ListGate.isMatchingSignal (ListGate.init event).m_event)).length
            % list.length]? = some x ∧
      (((ListGate.init event).run list pre).openGate list b).sent
        = [{ time := b.time, payload := x }] := by
  have hpos : 0 < list.length := by omega
  have hrun := ListGate.run_inCount list pre (ListGate.init event) hmax hpos
  have h0 : (ListGate.init event).m_inCount = 0 := rfl
  rw [h0, Nat.zero_add] at hrun
  have hc : ((ListGate.init event).run list pre).m_inCount < list.length := by
    rw [hrun.2]; exact Nat.mod_lt _ hpos
  have hm2 : ((ListGate.init event).run list pre).m_event < 0 ∨
      b.payload = ((ListGate.init event).run list pre).m_event := by
    rw [hrun.1]; exact of_decide_eq_true hm
  rw [ListGate.openGate_step _ list b hmax hc hm2]
  refine ⟨hc, Nat.mod_lt _ hpos, rfl, list[((ListGate.init event).run list pre).m_inCount], ?_, rfl⟩
  rw [← hrun.2]
  exact List.getElem?_eq_getElem hc

/-- Witness for C24: a list of three elements, default event; two matching events and one
that does not match, then the third matching event. -/
theorem ListGate.openGate_pushes_next_element_witness :
    ((ListGate.init none).run [10, 20, 30]
        [{ time := 1, payload := 32 }, { time := 2, payload := 65 },
         { time := 3, payload := 32 }]).m_inCount < [10, 20, 30].length :=
  (ListGate.openGate_pushes_next_element none [10, 20, 30]
    [{ time := 1, payload := 32 }, { time := 2, payload := 65 }, { time := 3, payload := 32 }]
    { time := 4, payload := 32 } (by decide) (by decide) (by decide)).1

/-! ### PoseEstimation2D3D -/

/-- C25 fails on the code: configured with `min2d3dCorresp = 6`, the component keeps
`m_iMinCorrespondences = 6`, but `compute` with five 2D points (fewer than the configured
minimum) does not raise: it calls the pose estimator and sends its result, for every estimator
`computePose`.  Only fewer than four 2D points raise, whatever minimum is configured. -/
theorem PoseEstimation2D3D.compute_ignores_configured_minimum {P3 C E : Type}
    (computePose : List (ℚ × ℚ) → List P3 → C → Nat → Except String E)
    (PLANAR_HOMOGRAPHY ts : Nat) (p3d : List P3) (cam : C) :
    (PoseEstimation2D3D.init PLANAR_HOMOGRAPHY none (some 6)).m_iMinCorrespondences = 6 ∧
    [((0 : ℚ), (0 : ℚ)), (1, 0), (1, 1), (0, 1), (2, 2)].length
      < (PoseEstimation2D3D.init PLANAR_HOMOGRAPHY none (some 6)).m_iMinCorrespondences ∧
    PoseEstimation2D3D.compute computePose (PoseEstimation2D3D.init PLANAR_HOMOGRAPHY none (some 6))
        ts [(0, 0), (1, 0), (1, 1), (0, 1), (2, 2)] p3d cam
      = (match computePose [(0, 0), (1, 0), (1, 1), (0, 1), (2, 2)] p3d cam PLANAR_HOMOGRAPHY with
         | .error e => .error e
         | .ok errPose => .ok { time := ts, payload := errPose }) := by
  refine ⟨rfl, (show (5 : Nat) < 6 by decide), ?_⟩
  unfold PoseEstimation2D3D.compute
  simp only [List.length_cons, List.length_nil]
  rw [if_neg (show ¬ ((0 + 1 + 1 + 1 + 1 + 1 : Nat) < 4) by decide)]
  rfl

/-! ### ResidualErrorComponent -/

/-- C26 fails on the code: for the correspondences `(2,0,0) ↔ (0,0,0)` and
`(0,3,0) ↔ (0,0,0)`, whose euclidean distances are 2 and 3, `compute` sends the sum of the
distances, 5, neither squared nor divided by the number of correspondences, while the
documented value (sum of the squared distances divided by their number) is `13/2`. -/
theorem ResidualErrorComponent.compute_sums_plain_distances (norm_2 : List ℚ → ℚ) (t : Nat)
    (h1 : norm_2 [2, 0, 0] = 2) (h2 : norm_2 [0, 3, 0] = 3) :
    ResidualErrorComponent.compute norm_2 t [[2, 0, 0], [0, 3, 0]] [[0, 0, 0], [0, 0, 0]]
      = some (.ok { time := t, payload := 5 }) ∧
    ResidualErrorComponent.documentedResidual [[2, 0, 0], [0, 3, 0]] [[0, 0, 0], [0, 0, 0]]
      = 13 / 2 := by
  constructor
  · unfold ResidualErrorComponent.compute
    rw [if_neg (by decide), if_neg (by decide)]
    simp only [List.zipWith_cons_cons, List.zipWith_nil_right, List.foldl_cons, List.foldl_nil,
      sub_zero, h1, h2]
    norm_num
  · simp only [ResidualErrorComponent.documentedResidual, List.zipWith_cons_cons,
      List.zipWith_nil_right, List.map_cons, List.map_nil, List.sum_cons, List.sum_nil,
      List.length_cons, List.length_nil]
    norm_num

/-- Witness for the evaluation of C26: the largest coordinate magnitude agrees with the
euclidean norm on vectors along one axis. -/
theorem ResidualErrorComponent.compute_sums_plain_distances_witness :
    ResidualErrorComponent.compute (fun v => v.foldl (fun a x => max a |x|) 0) 7
        [[2, 0, 0], [0, 3, 0]] [[0, 0, 0], [0, 0, 0]]
      = some (.ok { time := 7, payload := 5 }) :=
  (ResidualErrorComponent.compute_sums_plain_distances
    (fun v => v.foldl (fun a x => max a |x|) 0) 7 (by norm_num) (by norm_num)).1

/-! ### TimeComplementaryFusion -/

theorem castToLong_delay : castToLong ((100 : ℚ) * 1000000) = some 100000000 := by
  have hval : (100 : ℚ) * 1000000 = ((100000000 : Int) : ℚ) := by norm_num
  unfold castToLong
  rw [hval, if_pos (by norm_num), if_pos (by norm_num), Int.floor_intCast]

/-- C27 fails on the code: configured with `delayTime = 100` (ms) the constructor stores
`100 * 10^6` in `m_delayTime`, and `poseInB` multiplies it by `10^6` once more.  After an
`InputA` event at `10^18` ns an `InputB` event 200 ms later is not forwarded, although the
time difference of `2 * 10^8` ns is greater than the delay of `100 * 10^6` ns. -/
theorem TimeComplementaryFusion.poseInB_scales_delay_twice :
    (TimeComplementaryFusion.init (some 100)).map
        (fun s => (s.m_delayTime,
          ((s.poseInA ({ time := 1000000000000000000, payload := 0 } : Measurement Nat)).state.poseInB
            ({ time := 1000000000000000000 + 200000000, payload := 1 } : Measurement Nat)).map
            fun r => r.sent))
      = some (100000000, some []) ∧
    timestampSub (1000000000000000000 + 200000000) 1000000000000000000 = 200000000 ∧
    (100 : Int) * 10 ^ 6 < 200000000 := by
  refine ⟨?_, by decide, by decide⟩
  show (Option.map _ ((castToLong ((100 : ℚ) * 1000000)).map _)) = _
  rw [castToLong_delay]
  decide

end Ubitrack
